import Mathlib

/-!
Verification development for the Datastream filtering pipeline
(`01_Filtering/filter.py` and the driver scripts `01_filtering_US.py`,
`01_filtering_EU.py`).

Modelling conventions:
* Nullable floating-point cells are modelled as `Option ℚ` (`none` = NaN).
  The panels hold finite values; the one place where an infinity can arise
  inside a filter expression (the adjustment-inconsistency ratio, which
  divides by an exact zero) is modelled explicitly by the `AVal` type.
* NumPy/pandas comparison semantics are kept: any comparison with NaN is
  `false`, and `NaN == NaN` is `false`.
* Dates are triples (year, month, day) ordered lexicographically; a pandas
  `Period[M]` is the pair (year, month).
* `groupby(...).apply` over stocks is modelled by `applyByStock`: groups are
  enumerated in order of first appearance (pandas enumerates them in sorted
  key order; none of the verified properties depend on the enumeration
  order of the groups) and the concatenated result is returned.
* A stage's removal-rate report (`1 - out/in`) is part of its observable
  behaviour because its division raises `ZeroDivisionError` in Python when
  the denominator is zero; each stage therefore has a `..._core` function
  (the dataframe computation) and a `..._run` function returning
  `Except String ...` that models the `ValueError` country check and the
  `ZeroDivisionError` of the report in the order the Python code reaches
  them.
-/

namespace Datastream

/- The Batteries rational operations are `@[irreducible]`, which blocks
`decide` on concrete evaluations; restore the default reducibility locally
(this has no logical content). -/
attribute [local semireducible] Rat.add Rat.mul Rat.sub Rat.inv

/-- A nullable float cell. -/
abbrev V := Option ℚ

/-- NumPy `==` on nullable cells: comparisons involving NaN are false. -/
def oEq (a b : V) : Bool :=
  match a, b with
  | some x, some y => x == y
  | _, _ => false

/-- NumPy `>` against a constant threshold; false on NaN. -/
def oGtC (a : V) (t : ℚ) : Bool :=
  match a with
  | some x => decide (t < x)
  | none => false

/-- NumPy `<` against a constant threshold; false on NaN. -/
def oLtC (a : V) (t : ℚ) : Bool :=
  match a with
  | some x => decide (x < t)
  | none => false

/-- NumPy `>=` against a constant threshold; false on NaN. -/
def oGeC (a : V) (t : ℚ) : Bool :=
  match a with
  | some x => decide (t ≤ x)
  | none => false

/-- NumPy `<=` against a constant threshold; false on NaN. -/
def oLeC (a : V) (t : ℚ) : Bool :=
  match a with
  | some x => decide (x ≤ t)
  | none => false

/-- A calendar date (year, month, day). -/
structure Dt where
  y : Int
  m : Int
  d : Int
deriving DecidableEq, Repr

/-- Lexicographic `≤` on dates. -/
def dtLe (a b : Dt) : Bool :=
  decide (a.y < b.y) ||
    (a.y == b.y && (decide (a.m < b.m) || (a.m == b.m && decide (a.d ≤ b.d))))

/-- The `Period[M]` (calendar month) of a date. -/
def monthOf (a : Dt) : Int × Int := (a.y, a.m)

/-- One Panel row (a stock-day observation). -/
structure Row where
  stock : String
  date : Dt
  opn : V
  high : V
  low : V
  close : V
  volume : V
  retIdx : V
  mcap : V
  adjF : V
  unadjC : V
  ret : V
deriving DecidableEq, Repr

/-- One Statics row (per-security metadata). -/
structure SRow where
  dscd : String
  ename : Option String
  geogn : String
  isinid : String
  loc : String
  pcur : String
  trac : String
  delist : Option Dt
deriving DecidableEq, Repr

/-! ### Generic list utilities (the `GroupAggregator` primitives) -/

/-- Unique values in order of first appearance. -/
def uniq {α : Type} [DecidableEq α] : List α → List α
  | [] => []
  | x :: xs => x :: (uniq xs).filter (fun y => y ≠ x)

/-- Stable insertion of `x` into a list ordered by `le`. -/
def insertBy {α : Type} (le : α → α → Bool) (x : α) : List α → List α
  | [] => [x]
  | y :: ys => if le y x then y :: insertBy le x ys else x :: y :: ys

/-- Stable insertion sort (pandas `sort_values`; stability is immaterial to
the verified properties). -/
def isortBy {α : Type} (le : α → α → Bool) : List α → List α
  | [] => []
  | x :: xs => insertBy le x (isortBy le xs)

/-- Keep the elements whose mask entry is `true` (boolean indexing). -/
def maskFilter {α : Type} : List α → List Bool → List α
  | [], _ => []
  | _, [] => []
  | x :: xs, b :: bs => if b then x :: maskFilter xs bs else maskFilter xs bs

/-- Rows of one stock, in panel order. -/
def groupOf (p : List Row) (s : String) : List Row :=
  p.filter (fun r => r.stock == s)

/-- The distinct stocks of a panel, in order of first appearance. -/
def stocksOf (p : List Row) : List String :=
  uniq (p.map Row.stock)

/-- `groupby("Stock").apply(f)` followed by concatenation. -/
def applyByStock (f : List Row → List Row) (p : List Row) : List Row :=
  (stocksOf p).flatMap (fun s => f (groupOf p s))

/-- Sort rows by date (`sort_values("Date")`). -/
def sortByDate (l : List Row) : List Row :=
  isortBy (fun a b => dtLe a.date b.date) l

/-! ### Stage: stale-price filter (`filter_stale_prices`, filter (14)) -/

/-- The running repetition counter of `filter_stale_prices_for_stock`,
continuing after a previous value `prev` whose current run length is
`run`. -/
def runCtrFrom (prev : V) (run : Nat) : List V → List Nat
  | [] => []
  | y :: ys =>
    let r := if oEq y prev then run + 1 else 1
    r :: runCtrFrom y r ys

/-- The repetition counter for a whole per-stock `ReturnIndex` series
(`current_run` in the source); position 0 always counts 1. -/
def runCtr : List V → List Nat
  | [] => []
  | x :: xs => 1 :: runCtrFrom x 1 xs

/-- The keep mask of the stale-price filter: a row survives while its
repetition counter is at most 30 (the source's hard-coded threshold). -/
def staleKeep (xs : List V) : List Bool :=
  (runCtr xs).map (fun c => decide (c ≤ 30))

/-- `filter_stale_prices_for_stock` on the date-ordered `ReturnIndex`
series of one stock. -/
def filter_stale_prices_stock (xs : List V) : List V :=
  maskFilter xs (staleKeep xs)

/-- Panel-level `filter_stale_prices`. -/
def filter_stale_prices_core (p : List Row) : List Row :=
  applyByStock
    (fun g =>
      let g' := sortByDate g
      maskFilter g' (staleKeep (g'.map Row.retIdx)))
    p

/-! Index `m` is a *run break* of the series `xs` when the run-length
counter restarts there: either `m = 0` or the value changed at `m`. -/

/-- `m` is a run break of `xs`. -/
def runBreak (xs : List V) (m : Nat) : Prop :=
  m = 0 ∨ oEq (xs.getD m none) (xs.getD (m - 1) none) = false

instance (xs : List V) (m : Nat) : Decidable (runBreak xs m) := by
  unfold runBreak; infer_instance

/-- The start of the run containing position `i` (the largest break `≤ i`). -/
def runStart (xs : List V) : Nat → Nat
  | 0 => 0
  | i + 1 =>
    if oEq (xs.getD (i + 1) none) (xs.getD i none) then runStart xs i else i + 1

/-! ### Aggregation helpers -/

/-- Non-null entries of a nullable column (`dropna`). -/
def dropNone (xs : List V) : List ℚ :=
  xs.filterMap id

/-- `≤` on rationals as a Bool, for sorting. -/
def qLe (a b : ℚ) : Bool := decide (a ≤ b)

/-- Sorted copy of a rational list. -/
def sortQ (xs : List ℚ) : List ℚ := isortBy qLe xs

/-- pandas `Series.median` over the non-null values: `none` on an empty
list, the middle element for odd length, the mean of the two middle
elements for even length. -/
def medianOfQ (xs : List ℚ) : Option ℚ :=
  let s := sortQ xs
  let n := s.length
  if n = 0 then none
  else if n % 2 = 1 then some (s.getD (n / 2) 0)
  else some ((s.getD (n / 2 - 1) 0 + s.getD (n / 2) 0) / 2)

/-- pandas `Series.quantile(p)` (linear interpolation) over the non-null
values: with the sorted values `v₀ … v_{n-1}` and `h = p·(n-1)`, the result
is `v_⌊h⌋ + (h - ⌊h⌋)·(v_{⌊h⌋+1} - v_⌊h⌋)`; `none` on an empty list. -/
def quantileLin (p : ℚ) (xs : List ℚ) : Option ℚ :=
  let s := sortQ xs
  let n := s.length
  if n = 0 then none
  else
    let h : ℚ := p * ((n : ℚ) - 1)
    let i : Nat := h.floor.toNat
    let lo := s.getD i 0
    let hi := s.getD (Nat.min (i + 1) (n - 1)) 0
    some (lo + (h - (i : ℚ)) * (hi - lo))

/-- Sum of a rational list. -/
def sumQ (xs : List ℚ) : ℚ := xs.foldr (· + ·) 0

/-- Sample mean (used inside the sample variance). -/
def meanQ (xs : List ℚ) : ℚ := sumQ xs / (xs.length : ℚ)

/-- Sample variance with `ddof = 1` over the non-null values; `none` for
fewer than two observations (where pandas `std` yields NaN, which the
volatility filters drop via `dropna`).  `std > t ↔ var > t²` for `t ≥ 0`,
so the volatility stages compare variances against squared thresholds. -/
def sampleVar (xs : List ℚ) : Option ℚ :=
  if xs.length < 2 then none
  else
    let mu := meanQ xs
    some (sumQ (xs.map (fun x => (x - mu) * (x - mu))) / ((xs.length : ℚ) - 1))

/-- Last non-null value of a nullable column (pandas `groupby(...).last()`
takes the last non-null entry). -/
def lastSome (xs : List V) : V :=
  (dropNone xs).getLast?

/-! ### Error messages of a stage run -/

/-- The `ZeroDivisionError` raised by an unguarded removal-rate report. -/
def divZeroMsg : String := "ZeroDivisionError: division by zero"

/-- The `ValueError` raised by a country lookup, naming the full valid key
set of the lookup table. -/
def invalidCountryMsg (c : String) (keys : List String) : String :=
  "ValueError: Invalid country: " ++ c ++ ". Must be one of [" ++
    String.intercalate ", " keys ++ "]."

/-- Association-list lookup for the country rule tables. -/
def lookupTbl {α : Type} (tbl : List (String × α)) (c : String) : Option α :=
  (tbl.find? (fun kv => kv.1 == c)).map (fun kv => kv.2)

/-! ### Substring matching on `ENAME`

The name patterns are matched as literal substrings (`str.contains` with
escaped patterns; the regex machinery itself is abstracted away, which is
immaterial to the verified claims). `na=False`: a null `ENAME` matches
nothing. -/

/-- `pat` is a prefix of `s` (on character lists). -/
def isPrefixChars : List Char → List Char → Bool
  | [], _ => true
  | _ :: _, [] => false
  | a :: as, b :: bs => a == b && isPrefixChars as bs

/-- `pat` occurs as a contiguous substring of `s`. -/
def isInfixChars (pat : List Char) : List Char → Bool
  | [] => isPrefixChars pat []
  | s@(_ :: rest) => isPrefixChars pat s || isInfixChars pat rest

/-- Literal substring test on strings. -/
def substrB (pat s : String) : Bool := isInfixChars pat.data s.data

/-- `ENAME.str.contains(any of pats, na=False)`. -/
def enameMatches (pats : List String) (sr : SRow) : Bool :=
  match sr.ename with
  | none => false
  | some e => pats.any (fun pp => substrB pp e)

/-! ### CountryRuleTables (static per-country lookup data) -/

/-- `equity_identifers` of `filter_non_common_stocks`: per-country
non-equity name patterns. -/
def equityIdentifiers : List (String × List String) :=
  [("UNITED STATES",
    [" TRUST ", " REPR ", " RIGHT", " SERIES ", " NV ", " IV TST",
     "REAL ESTATE INVESTMENT", "REALTY ", " RLTY", "ROYALTY INVESTMENT",
     "ASSET INVESTMENT", "CAPITAL INVESTMENT", "ASSET MANAGEMENT",
     "CAPITAL MANAGEMENT", "INVESTMENT MANAGEMENT", "VENTURE CAPITAL",
     "FINANCIAL SHBI", "PROPERTY INVESTORS", "INCOME PROPERTY", " UNITS ",
     " UNIT ", "LIMITED PARTENERSHIP", "FUND ", "EQUITY PARTNERS",
     "LIMITED VOTING", "SUB VOTING", "TIER ONE SUB", "VARIABLE VOTING",
     "NON VOTINGREIT ", " RESIDENTIAL", "R E I T", "BENEFICIAL",
     "BENEFICIARY", "BENEFIT INTEREST", "BEN INTEREST", "SH BEN INT ",
     "WARRANT", "WRTS", " L P ", "L P INTEREST", "LP UT", "HOLDINGS LP",
     "PARTENERS UNIT", "PART INT", "UNIT PARTENERSHIP", "UNIT LIMITED",
     " MORTGAGE", " REAL ESTATE", "CERTIFICATE", "NO PAR VALUE",
     "HOLDING UNIT", " BACKED", " ST MIN", " CORTS ", " TORPS ", " TOPRS ",
     "SECURITIES TRUPS", " QUIPS ", "STRATS HIGH YIELD", "TOTAL RETURN",
     "DIVERSIFIED HOLDINGS", "(SICAV)", "DEPOSITARY", "DEPOSITOR",
     " RECEIPT", "REP & SHARES", " GLOBAL SHARES", " ADR ", " GDR", "EXPD.",
     "EXPIRED", "DUPLICATE", "CONVERTIBLE", "CNVRT.", "CONVRT.", "EXCH.",
     "DEBANTURE", "(DEB)", "NIL PAID", "STRUCTURED ASSET", " CALLABLE",
     "FLOATING RATE", " ADJUSTABLE", "REDEEMABLE", " PAIRED CTF",
     "CONSOLIDATED", "INSURED", "CAPITAL SHARES", "DEBT STRATEGIES",
     "LIQUIDATING", "LIQUID UNIT", "L UNIT", "- LASD", "ACQUISITION",
     "CAP UNIT", "INCOME UNIT", "PREFERRED"]),
   ("AUSTRIA",
    ["CERTIFICATE", " ZT ", " NK5 ", "DUPLICATE", "PARTICIPATION CERTIFICATE",
     "CERT ", " VI ", "REIT ", " % S ", "NIL PAID"]),
   ("AZERBAIJAN", []),
   ("BELGIUM",
    ["STR ", "STR VV ", " STRIP", " STRIPS", " VVPR", "CERTIFICATE", " CERT", " PC ",
     " CNP ", " IDR", " UNITS", "DELAWARE", " ST VV", " CS 1", " STRIP VV PR",
     "FULLY", " CVA", " RNC", "RIGHTS", " REIT"]),
   ("BOSNIA AND HERZEGOVINA", []),
   ("BULGARIA", ["FUND", "REIT", "NIL PAID", "MONTSTROY"]),
   ("CROATIA", ["PREFERENCE SHARES", " PIF"]),
   ("CZECH REPUBLIC", []),
   ("CYPRUS", ["NIL PAID", " RTS"]),
   ("DENMARK", ["NIL PAID", "REGD CERT"]),
   ("ESTONIA", ["ADDITIONAL SHARE", " NRFD", "TUIENDAV AKTSIA"]),
   ("FINLAND", [" FDR", "SUBSCRIPTION RECEIPT", "SALES RIGHTS"]),
   ("FRANCE",
    ["CERTIFICATE", "DELAWARE", "LIMITED DATA", "BONUS RIGHTS", " BDR", " ADP",
     " SPA", "PREFERRED", "STOCK DIVIDEND", "SPA RP", " AFV ", "NIL PAID", " NV ",
     " NRFD ", "NR ", " CVA", "DROIT DE VOTE", " PS ", "NIL PAID", " ADP",
     " FDR"]),
   ("GERMANY",
    ["REIT", " SWAP", "GENUSSSCHEINE", "PREFERENCE", " NPV", "NIL PAID",
     "BONUS RIGHTS", " GS ", " PF ", "SUB RIGHTS", " CDI ", " RSP ",
     "DEPOSITORY RECEIPTS", " UNIT ", "CHESS DEPOSITORY INTEREST", "DEFERRED",
     "PARTICIPATE CERTIFICATE", "LIMITED PARTENERSHIP", " GDRS", " TRUST", " REIT",
     " REFINERY"]),
   ("GREECE", [" PR ", " UNITS", "PREFERENCE"]),
   ("HUNGARY", [" UNITS", " TRUST"]),
   ("ICELAND", []),
   ("IRELAND", ["DUPLICATE", " FUND", " UNITS", " REIT"]),
   ("ITALY",
    [" RSP", " CONV RTS", "NIL PAID", "SUB RIGHTS", "BONUS RIGHTS", " RIGHTS ",
     " RP ", " RCV", " NRFD", "FULLY PAID", "FULLY PIAD", " ETN "]),
   ("KAZAKHSTAN", ["PREFERENCE LIMITED", "PREFERENCE SHARES"]),
   ("LATVIA", ["FB "]),
   ("LITHUANIA", []),
   ("LUXEMBOURG",
    [" IDR ", "DEPOSITARY RECEIPT", "DEPOSITARY", " EDR ", " VVPR", "DELAWARE",
     " EDR ", " CDR ", " FDR ", " CERT", " GDR ", " BDR"]),
   ("NORTH MACEDONIA", []),
   ("MALTA", []),
   ("MONTENEGRO", []),
   ("NETHERLANDS",
    ["CERTIFICATE", "DUPLICATE", "DEPOSITARY", "BONUS RIGHTS", " % STOCK ", " CERT",
     "CERTS", "TRUST INCOME", " STRIP", " CT ", " DUPL", " UNITS", " SPA ",
     "STRIP VVPR", "PREFERENCE"]),
   ("NORWAY", [" DUPLI", "NEW SHARES", "NIL PAID"]),
   ("POLAND", ["NIL PAID"]),
   ("PORTUGAL", ["BONUS RIGHT", "NIL PAID"]),
   ("ROMANIA", []),
   ("RUSSIAN FEDERATION", [" PREF", "TRAST", " RDP", "PREFERENCE", " PREF."]),
   ("SERBIA", [" CF "]),
   ("SLOVAKIA", [" FOND", " VP", " POV P", " PP", " LINKV", " ZSP"]),
   ("SLOVENIA", []),
   ("SPAIN",
    ["NIL PAID", "BONUS RIGHTS", "BUNUS RIGHTS", " SHARES", " LIMITED DATA",
     " CPO "]),
   ("SWEDEN",
    [" SDB", " UNIT", "NIL PAID REDEMPTION", " REDEMP", " SDR", "FULLY PAID",
     " RFD", "INTERIM SHARE", " RIGHTS", "DEPOSITARY", "RECEIPTS", " SR 1",
     " RFD"]),
   ("SWITZERLAND",
    ["WHEN ISSUED", "CERTIFICATE", "DELAWARE", " SERIES", "REAL ESTATE FUND",
     " CERT", "DUPLICATE", " UNITS", " BOND", "BONUS RIGHTS", "REAL ESTATE IFCA",
     "PROPERTY FUND", " MIXED", " REIT", "COMMERCIAL FUND", " DRC"]),
   ("TURKEY", ["CERT", " NRFD", "NIL PAID", "FULLY PAID"]),
   ("UNITED KINGDOM",
    [" FUND ", " TRUST ", "NIL PAID", "STOCK UNIT", "ANNUITY UNIT", "UNIT £",
     "UNIT TRUST", " UNITS", " ZDP ", "REIT", "POST RED", "DEPOSITARY", " RECEIPT",
     "INTERIM SHARES", "REEDEMABLE", "PREFERENCE", "INVESTMENT TRUST", " ADR",
     "FULLY PAID", "PARTLY PAID", " BDR", " NRDF", "DEFERRED"]),
   ("UKRAINE", [" CF ", " FUND", " CLOSED FUND "])]

/-- `cross_listings_dict` of `filter_cross_listings`: per-country exchange
suffix markers.  Each regex alternative `\(XXX\)` is kept as the literal
string it matches; an empty pattern is the empty list. -/
def crossListingsDict : List (String × List String) :=
  [("UNITED STATES", ["(NYS)", "(NAS)", "(ASE)", "(OTC)", "(XSQ)", "(XQB)"]),
   ("AUSTRIA", ["(WBO)"]),
   ("AZERBAIJAN", []),
   ("BELGIUM", ["(BRU)"]),
   ("BOSNIA AND HERZEGOVINA", []),
   ("BULGARIA", []),
   ("CROATIA", []),
   ("CZECH REPUBLIC", ["(PRA)"]),
   ("CYPRUS", ["(CYP)"]),
   ("DENMARK", ["(CSE)"]),
   ("ESTONIA", []),
   ("FINLAND", ["(HEL)"]),
   ("FRANCE", ["(PAR)"]),
   ("GERMANY", ["(FRA)", "(STU)", "(HAM)", "(DUS)", "(MUN)", "(XET)"]),
   ("GREECE", ["(ATH)"]),
   ("HUNGARY", ["(BUD)"]),
   ("ICELAND", ["(ICE)"]),
   ("IRELAND", ["(DUB)", "(IEX)", "(ESM)"]),
   ("ITALY", ["(MIL)"]),
   ("KAZAKHSTAN", ["(KAZ)"]),
   ("LATVIA", []),
   ("LITHUANIA", []),
   ("LUXEMBOURG", ["(LUX)"]),
   ("NORTH MACEDONIA", []),
   ("MALTA", ["(MALTA)", "(MAL.)"]),
   ("MONTENEGRO", []),
   ("NETHERLANDS", ["(AMS)", "(FL)"]),
   ("NORWAY", ["(OSL)"]),
   ("POLAND", ["(WAR)"]),
   ("PORTUGAL", ["(LIS)"]),
   ("ROMANIA", ["(BSE)"]),
   ("RUSSIAN FEDERATION", []),
   ("SERBIA", []),
   ("SLOVAKIA", []),
   ("SLOVENIA", []),
   ("SPAIN", ["(MAD)"]),
   ("SWEDEN", ["(OME)", "(XSQ)"]),
   ("SWITZERLAND", ["(SWX)", "(BRN)"]),
   ("TURKEY", ["(IST)"]),
   ("UNITED KINGDOM", ["(LON)", "(UNITED KINGDOM)"]),
   ("UKRAINE", [])]

/-- `currencies_dict` of `filter_foreign_currency_stocks`: accepted `PCUR`
codes per country. -/
def currenciesDict : List (String × List String) :=
  [("UNITED STATES", ["U$"]),
   ("AUSTRIA", ["AS", "E"]),
   ("AZERBAIJAN", ["AM"]),
   ("BELGIUM", ["BF", "E"]),
   ("BOSNIA AND HERZEGOVINA", ["BO"]),
   ("BULGARIA", ["BL"]),
   ("CROATIA", ["KA", "E"]),
   ("CZECH REPUBLIC", ["CK", "E"]),
   ("CYPRUS", ["CY", "E"]),
   ("DENMARK", ["DK"]),
   ("ESTONIA", ["EK", "E"]),
   ("FINLAND", ["M", "E"]),
   ("FRANCE", ["FF", "E"]),
   ("GERMANY", ["DM", "E"]),
   ("GREECE", ["DR", "E"]),
   ("HUNGARY", ["HF"]),
   ("ICELAND", ["IK"]),
   ("IRELAND", ["£E", "E"]),
   ("ITALY", ["L", "E"]),
   ("KAZAKHSTAN", ["KT"]),
   ("LATVIA", ["LV", "E"]),
   ("LITHUANIA", ["LT", "E"]),
   ("LUXEMBOURG", ["LF", "E"]),
   ("NORTH MACEDONIA", ["MC"]),
   ("MALTA", ["M£", "E"]),
   ("MONTENEGRO", ["E"]),
   ("NETHERLANDS", ["FL", "E"]),
   ("NORWAY", ["NK"]),
   ("POLAND", ["PZ"]),
   ("PORTUGAL", ["PE", "E"]),
   ("ROMANIA", ["RL"]),
   ("RUSSIAN FEDERATION", ["UR", "U$"]),
   ("SERBIA", ["YD"]),
   ("SLOVAKIA", ["KK", "E"]),
   ("SLOVENIA", ["TO", "E"]),
   ("SPAIN", ["EP", "E"]),
   ("SWEDEN", ["SK"]),
   ("SWITZERLAND", ["SF"]),
   ("TURKEY", ["TL"]),
   ("UNITED KINGDOM", ["£"]),
   ("UKRAINE", ["KB"])]

/-- `country_start_dates` of `filter_surivorship_bias` (DD-MM-YYYY strings
parsed with `dayfirst=True`). -/
def countryStartDates : List (String × Dt) :=
  [("UNITED STATES", ⟨1984, 12, 31⟩),
   ("AUSTRIA", ⟨1991, 12, 31⟩),
   ("AZERBAIJAN", ⟨1900, 12, 31⟩),
   ("BELGIUM", ⟨1991, 12, 31⟩),
   ("BOSNIA AND HERZEGOVINA", ⟨2009, 12, 31⟩),
   ("BULGARIA", ⟨2005, 12, 31⟩),
   ("CROATIA", ⟨2005, 12, 31⟩),
   ("CZECH REPUBLIC", ⟨1995, 12, 31⟩),
   ("CYPRUS", ⟨2009, 12, 31⟩),
   ("DENMARK", ⟨1987, 12, 31⟩),
   ("ESTONIA", ⟨2009, 12, 31⟩),
   ("FINLAND", ⟨1987, 12, 31⟩),
   ("FRANCE", ⟨1981, 12, 31⟩),
   ("GERMANY", ⟨1988, 12, 31⟩),
   ("GREECE", ⟨1995, 12, 31⟩),
   ("HUNGARY", ⟨1999, 12, 31⟩),
   ("ICELAND", ⟨2005, 12, 31⟩),
   ("IRELAND", ⟨1989, 12, 31⟩),
   ("ITALY", ⟨1988, 12, 31⟩),
   ("KAZAKHSTAN", ⟨2013, 12, 31⟩),
   ("LATVIA", ⟨2009, 12, 31⟩),
   ("LITHUANIA", ⟨2007, 12, 31⟩),
   ("LUXEMBOURG", ⟨1994, 12, 31⟩),
   ("NORTH MACEDONIA", ⟨2009, 12, 31⟩),
   ("MALTA", ⟨2004, 3, 31⟩),
   ("MONTENEGRO", ⟨2012, 12, 31⟩),
   ("NETHERLANDS", ⟨1986, 12, 31⟩),
   ("NORWAY", ⟨1986, 12, 31⟩),
   ("POLAND", ⟨1995, 12, 31⟩),
   ("PORTUGAL", ⟨1991, 12, 31⟩),
   ("ROMANIA", ⟨2008, 12, 31⟩),
   ("RUSSIAN FEDERATION", ⟨2004, 12, 31⟩),
   ("SERBIA", ⟨2009, 12, 31⟩),
   ("SLOVAKIA", ⟨2007, 12, 31⟩),
   ("SLOVENIA", ⟨2005, 12, 31⟩),
   ("SPAIN", ⟨1992, 12, 31⟩),
   ("SWEDEN", ⟨1986, 12, 31⟩),
   ("SWITZERLAND", ⟨1982, 12, 31⟩),
   ("TURKEY", ⟨1994, 12, 31⟩),
   ("UNITED KINGDOM", ⟨1984, 12, 31⟩),
   ("UKRAINE", ⟨2006, 12, 31⟩)]

/-! ### Stage runs: guard for the removal-rate division -/

/-- An unguarded removal-rate report `1 - out/denom` raises
`ZeroDivisionError` when `denom = 0`; otherwise the stage's value is
returned. -/
def guardDiv {α : Type} (denom : Nat) (x : α) : Except String α :=
  if denom = 0 then .error divZeroMsg else .ok x

/-! ### Stage: non-common-stock filter (`filter_non_common_stocks`, (1)) -/

/-- The fixed accepted `TRAC` codes overriding the name-based flag. -/
def tracAccepted (sr : SRow) : Bool :=
  ["ORD", "ORDSUBR", "FULLPAID", "UKNOWN", "UNKNOW", "KNOW"].contains sr.trac

/-- `keep_condition = is_ord | ~ename_condition`. -/
def nonCommonKeep (pats : List String) (sr : SRow) : Bool :=
  tracAccepted sr || !(enameMatches pats sr)

def filter_non_common_stocks_core (c : String) (p : List Row) (s : List SRow) :
    List Row :=
  let pats := (lookupTbl equityIdentifiers c).getD []
  let rem := (s.filter (nonCommonKeep pats)).map SRow.dscd
  p.filter (fun r => rem.contains r.stock)

def filter_non_common_stocks_run (c : String) (p : List Row) (s : List SRow) :
    Except String (List Row) :=
  match lookupTbl equityIdentifiers c with
  | none => .error (invalidCountryMsg c (equityIdentifiers.map Prod.fst))
  | some _ => guardDiv s.length (filter_non_common_stocks_core c p s)

/-! ### Stage: cross-listing filter (`filter_cross_listings`, (2)) -/

def filter_cross_listings_core (c : String) (p : List Row) (s : List SRow) :
    List Row :=
  let alts := (lookupTbl crossListingsDict c).getD []
  let rem := (s.filter (fun sr => !(enameMatches alts sr))).map SRow.dscd
  p.filter (fun r => rem.contains r.stock)

def filter_cross_listings_run (c : String) (p : List Row) (s : List SRow) :
    Except String (List Row) :=
  match lookupTbl crossListingsDict c with
  | none => .error (invalidCountryMsg c (crossListingsDict.map Prod.fst))
  | some _ => guardDiv s.length (filter_cross_listings_core c p s)

/-! ### Stage: duplicate-LOC filter (`filter_duplicate_loc_codes`, (3)) -/

/-- `rows_to_keep = ~((loc_size > 1) & has_p & (ISINID != "P"))`. -/
def dupLocKeep (s : List SRow) (sr : SRow) : Bool :=
  !(decide (1 < s.countP (fun x => x.loc == sr.loc)) &&
    s.any (fun x => x.loc == sr.loc && x.isinid == "P") &&
    sr.isinid != "P")

def filter_duplicate_loc_codes_core (p : List Row) (s : List SRow) : List Row :=
  let rem := (s.filter (dupLocKeep s)).map SRow.dscd
  p.filter (fun r => rem.contains r.stock)

def filter_duplicate_loc_codes_run (p : List Row) (s : List SRow) :
    Except String (List Row) :=
  guardDiv s.length (filter_duplicate_loc_codes_core p s)

/-! ### Stage: survivorship-bias filter (`filter_surivorship_bias`, (17)) -/

def filter_surivorship_bias_core (c : String) (p : List Row) (s : List SRow) :
    List Row :=
  let start := (lookupTbl countryStartDates c).getD ⟨1900, 1, 1⟩
  let cs := (s.filter (fun sr => sr.geogn == c)).map SRow.dscd
  (p.filter (fun r => cs.contains r.stock)).filter (fun r => dtLe start r.date)

/-- The removal report of this stage guards its division
(`if original_count > 0 else 0.0`), so only the country check can fail. -/
def filter_surivorship_bias_run (c : String) (p : List Row) (s : List SRow) :
    Except String (List Row) :=
  match lookupTbl countryStartDates c with
  | none => .error (invalidCountryMsg c (countryStartDates.map Prod.fst))
  | some _ => .ok (filter_surivorship_bias_core c p s)

/-! ### Stage: foreign-currency filter (`filter_foreign_currency_stocks`, (5)) -/

def filter_foreign_currency_stocks_core (c : String) (p : List Row)
    (s : List SRow) : List Row :=
  let cur := (lookupTbl currenciesDict c).getD []
  let rem := (s.filter (fun sr => cur.contains sr.pcur && sr.geogn == c)).map SRow.dscd
  p.filter (fun r => rem.contains r.stock)

/-- The removal report divides by the row count of the country's Statics
partition. -/
def filter_foreign_currency_stocks_run (c : String) (p : List Row)
    (s : List SRow) : Except String (List Row) :=
  match lookupTbl currenciesDict c with
  | none => .error (invalidCountryMsg c (currenciesDict.map Prod.fst))
  | some _ =>
    guardDiv (s.filter (fun sr => sr.geogn == c)).length
      (filter_foreign_currency_stocks_core c p s)

/-! ### Stage: small-country filter (`filter_countries_with_few_stocks`, (6)) -/

/-- The merge of the panel's distinct stocks with `statics[["DSCD","GEOGN"]]`
(unmatched stocks obtain a null country and are skipped by the `groupby`). -/
def stockCountryPairs (p : List Row) (s : List SRow) : List (String × String) :=
  (stocksOf p).flatMap
    (fun st => (s.filter (fun sr => sr.dscd == st)).map (fun sr => (sr.geogn, st)))

/-- The number of distinct panel stocks attributed to country `c`. -/
def nStocksOfCountry (p : List Row) (s : List SRow) (c : String) : Nat :=
  (uniq (((stockCountryPairs p s).filter (fun pr => pr.1 == c)).map Prod.snd)).length

def filter_countries_with_few_stocks_core (p : List Row) (s : List SRow)
    (minStocks : Nat) : List Row × List SRow :=
  let sf := s.filter (fun sr => decide (minStocks ≤ nStocksOfCountry p s sr.geogn))
  let valid := sf.map SRow.dscd
  (p.filter (fun r => valid.contains r.stock), sf)

/-- This stage's report only prints counts; it never divides. -/
def filter_countries_with_few_stocks_run (p : List Row) (s : List SRow)
    (minStocks : Nat) : Except String (List Row × List SRow) :=
  .ok (filter_countries_with_few_stocks_core p s minStocks)

/-! ### Stage: implausible-return filter (`filter_implausible_returns`, (7)) -/

def implausibleReturns (p : List Row) (s : String) : Bool :=
  let nz := (dropNone ((groupOf p s).map Row.ret)).filter (fun x => x != 0)
  if nz.length = 0 then false
  else
    decide ((98 / 100 : ℚ) < (nz.countP (fun x => decide (0 < x)) : ℚ) / (nz.length : ℚ)) ||
    decide ((98 / 100 : ℚ) < (nz.countP (fun x => decide (x < 0)) : ℚ) / (nz.length : ℚ))

def filter_implausible_returns_core (p : List Row) : List Row :=
  p.filter (fun r => !implausibleReturns p r.stock)

def filter_implausible_returns_run (p : List Row) : Except String (List Row) :=
  guardDiv p.length (filter_implausible_returns_core p)

/-! ### Stage: padded-value/delisting truncation
(`filter_padded_values_delistings`, (13)) -/

/-- `statics.drop_duplicates(subset="DSCD", keep="first")`. -/
def dedupByDSCD : List SRow → List SRow
  | [] => []
  | x :: xs => x :: (dedupByDSCD xs).filter (fun y => y.dscd ≠ x.dscd)

/-- The delisting date carried by the (inner) merge for a stock. -/
def lookupDelist (su : List SRow) (st : String) : Option Dt :=
  match su.find? (fun sr => sr.dscd == st) with
  | some sr => sr.delist
  | none => none

/-- A padded trailing observation: `Return` equal to zero or null. -/
def isPad (r : Row) : Bool := oEq r.ret (some 0) || r.ret.isNone

/-- `truncate_at_delisting` for one stock group. -/
def truncGroup (su : List SRow) (g : List Row) : List Row :=
  let g' := sortByDate g
  match g' with
  | [] => []
  | r0 :: _ =>
    match lookupDelist su r0.stock with
    | some dd => ((g'.filter (fun r => dtLe r.date dd)).reverse.dropWhile isPad).reverse
    | none => g'

def filter_padded_values_delistings_core (p : List Row) (s : List SRow) :
    List Row :=
  let su := dedupByDSCD s
  let pm := p.filter (fun r => (su.map SRow.dscd).contains r.stock)
  applyByStock (truncGroup su) pm

def filter_padded_values_delistings_run (p : List Row) (s : List SRow) :
    Except String (List Row) :=
  guardDiv p.length (filter_padded_values_delistings_core p s)

def filter_stale_prices_run (p : List Row) : Except String (List Row) :=
  guardDiv p.length (filter_stale_prices_core p)

/-! ### Stage: zero-return filter (`filter_zero_return_stocks`, (8)) -/

/-- `(x == 0.0).mean()` per stock: null returns count in the denominator
but never as zeros. -/
def zeroReturnFrac (p : List Row) (s : String) : ℚ :=
  ((groupOf p s).countP (fun r => oEq r.ret (some 0)) : ℚ) / ((groupOf p s).length : ℚ)

def filter_zero_return_stocks_core (p : List Row) : List Row :=
  p.filter (fun r => !decide ((95 / 100 : ℚ) < zeroReturnFrac p r.stock))

def filter_zero_return_stocks_run (p : List Row) : Except String (List Row) :=
  guardDiv p.length (filter_zero_return_stocks_core p)

/-! ### Stages: volatility filters (`filter_stocks_by_high_volatility` (9),
`filter_stocks_by_low_volatility` (10)); `std ⋈ t` is compared as
`var ⋈ t²`, equivalent for the non-negative thresholds the pipeline uses
(defaults 0.4 and 1e-6). -/

def stockRetVar (p : List Row) (s : String) : Option ℚ :=
  sampleVar (dropNone ((groupOf p s).map Row.ret))

def highVolStock (p : List Row) (ts : ℚ) (s : String) : Bool :=
  match stockRetVar p s with
  | some v => decide (ts * ts < v)
  | none => false

def filter_stocks_by_high_volatility_core (p : List Row) (ts : ℚ) : List Row :=
  p.filter (fun r => !highVolStock p ts r.stock)

def filter_stocks_by_high_volatility_run (p : List Row) (ts : ℚ) :
    Except String (List Row) :=
  guardDiv p.length (filter_stocks_by_high_volatility_core p ts)

def lowVolStock (p : List Row) (ts : ℚ) (s : String) : Bool :=
  match stockRetVar p s with
  | some v => decide (v < ts * ts)
  | none => false

def filter_stocks_by_low_volatility_core (p : List Row) (ts : ℚ) : List Row :=
  p.filter (fun r => !lowVolStock p ts r.stock)

def filter_stocks_by_low_volatility_run (p : List Row) (ts : ℚ) :
    Except String (List Row) :=
  guardDiv p.length (filter_stocks_by_low_volatility_core p ts)

/-! ### Stage: outlier-reversal filter (`filter_outlier_errors`, (15)) -/

/-- `cond1 | cond2` of the source, computed positionally over the
date-ordered `Return` series (`ret.shift(-1)` is null at the last row, so
no flag can arise there). -/
def outlierMask (up down : ℚ) : List V → List Bool
  | [] => []
  | [_] => [false]
  | x :: y :: rest =>
    ((oGtC x up && oLtC y down) || (oLtC x down && oGtC y up)) ::
      outlierMask up down (y :: rest)

/-- `outlier | outlier.shift(1, fill_value=False)`. -/
def orShiftFrom (prev : Bool) : List Bool → List Bool
  | [] => []
  | b :: bs => (b || prev) :: orShiftFrom b bs

def toReplace (m : List Bool) : List Bool := orShiftFrom false m

/-- Keep mask of the outlier-reversal filter. -/
def outlierKeep (up down : ℚ) (xs : List V) : List Bool :=
  (toReplace (outlierMask up down xs)).map (fun b => !b)

/-- The flag of the claim's reading: position `t` starts a reversal pair. -/
def flagAt (up down : ℚ) (xs : List V) (t : Nat) : Bool :=
  (oGtC (xs.getD t none) up && oLtC (xs.getD (t + 1) none) down) ||
  (oLtC (xs.getD t none) down && oGtC (xs.getD (t + 1) none) up)

/-- Kept positions (0-based) of a per-stock `Return` series under drop
mode. -/
def outlierKeptIdx (up down : ℚ) (xs : List V) : List Nat :=
  maskFilter (List.range xs.length) (outlierKeep up down xs)

inductive OutlierMode where
  | drop
  | zero
deriving DecidableEq, Repr

/-- `filter_stock` of the source on one stock group. -/
def filter_outlier_stock (up down : ℚ) (mode : OutlierMode) (g : List Row) :
    List Row :=
  let g' := sortByDate g
  let keepM := outlierKeep up down (g'.map Row.ret)
  match mode with
  | .drop => maskFilter g' keepM
  | .zero => (g'.zip keepM).map (fun rb => if rb.2 then rb.1 else { rb.1 with ret := some 0 })

def filter_outlier_errors_core (up down : ℚ) (mode : OutlierMode)
    (p : List Row) : List Row :=
  applyByStock (filter_outlier_stock up down mode) p

def filter_outlier_errors_run (up down : ℚ) (mode : OutlierMode)
    (p : List Row) : Except String (List Row) :=
  guardDiv p.length (filter_outlier_errors_core up down mode p)

/-! ### Stage: holiday filter (`filter_holidays`, (16)) -/

/-- Non-missing, non-zero return. -/
def activeRet (r : Row) : Bool :=
  match r.ret with
  | some v => v != 0
  | none => false

/-- Fraction of total distinct stocks with an active return on date `d`. -/
def holidayFrac (p : List Row) (d : Dt) : ℚ :=
  ((p.filter (fun r => decide (r.date = d))).countP activeRet : ℚ) /
    ((stocksOf p).length : ℚ)

def filter_holidays_core (p : List Row) (ts : ℚ) : List Row :=
  p.filter (fun r => decide (ts ≤ holidayFrac p r.date))

def filter_holidays_run (p : List Row) (ts : ℚ) : Except String (List Row) :=
  guardDiv p.length (filter_holidays_core p ts)

/-! ### Stage: penny-stock filter (`filter_penny_stocks`, (21)) -/

abbrev Month := Int × Int

def monthLe (a b : Month) : Bool :=
  decide (a.1 < b.1) || (a.1 == b.1 && decide (a.2 ≤ b.2))

def monthLt (a b : Month) : Bool :=
  decide (a.1 < b.1) || (a.1 == b.1 && decide (a.2 < b.2))

/-- The months in which stock `s` has observations, ascending (the sorted
group keys of `groupby(["Stock","Month"])`). -/
def monthsOfStock (p : List Row) (s : String) : List Month :=
  isortBy monthLe (uniq ((groupOf p s).map (fun r => monthOf r.date)))

/-- `LastUnadjClose`: the last non-null `UnadjClose` of stock `s` in month
`m` in date order (`groupby.last()` takes the last non-null entry). -/
def lastCloseInMonth (p : List Row) (s : String) (m : Month) : V :=
  lastSome
    ((sortByDate ((groupOf p s).filter (fun r => decide (monthOf r.date = m)))).map
      Row.unadjC)

/-- The month preceding `m` in stock `s`'s observed months (the row above in
the sorted per-stock monthly table, i.e. `shift(1)`). -/
def prevMonthOf (p : List Row) (s : String) (m : Month) : Option Month :=
  ((monthsOfStock p s).filter (fun m2 => monthLt m2 m)).getLast?

/-- `prev_UnadjClose` merged back onto every row of stock `s` in month `m`. -/
def prevUnadjClose (p : List Row) (s : String) (m : Month) : V :=
  match prevMonthOf p s m with
  | some m2 => lastCloseInMonth p s m2
  | none => none

/-- The per-month threshold: the `perc`-quantile of `prev_UnadjClose` over
all stock-day rows of month `m` (each stock weighted by its number of rows
in the month), ignoring nulls. -/
def pennyThreshold (p : List Row) (perc : ℚ) (m : Month) : Option ℚ :=
  quantileLin perc
    (dropNone
      ((p.filter (fun r => decide (monthOf r.date = m))).map
        (fun r => prevUnadjClose p r.stock m)))

/-- Keep rule: null previous close passes; otherwise `prev >= threshold`
(false when the threshold is null, which cannot occur for a non-null
`prev`). -/
def pennyKeep (p : List Row) (perc : ℚ) (r : Row) : Bool :=
  match prevUnadjClose p r.stock (monthOf r.date) with
  | none => true
  | some v =>
    match pennyThreshold p perc (monthOf r.date) with
    | some t => decide (t ≤ v)
    | none => false

def filter_penny_stocks_core (p : List Row) (perc : ℚ) : List Row :=
  p.filter (pennyKeep p perc)

def filter_penny_stocks_run (p : List Row) (perc : ℚ) :
    Except String (List Row) :=
  guardDiv p.length (filter_penny_stocks_core p perc)

/-- Modelled from the spec: the claim's reading of the threshold, the
`perc`-quantile of the previous-month closes across the distinct stocks
active in month `m` (one value per stock), ignoring nulls.  Used only to
compare the code against the claim. -/
def pennyThresholdPerStock (p : List Row) (perc : ℚ) (m : Month) : Option ℚ :=
  quantileLin perc
    (dropNone
      ((uniq ((p.filter (fun r => decide (monthOf r.date = m))).map Row.stock)).map
        (fun s => prevUnadjClose p s m)))

/-! ### Stage: implausible-OHLC filter (`filter_implausible_prices`) -/

/-- pandas `max(axis=1)` skips nulls; null when all entries are null. -/
def maxSkipNa (xs : List V) : V :=
  (dropNone xs).foldr
    (fun x acc => match acc with | none => some x | some y => some (max x y)) none

/-- pandas `min(axis=1)` skips nulls; null when all entries are null. -/
def minSkipNa (xs : List V) : V :=
  (dropNone xs).foldr
    (fun x acc => match acc with | none => some x | some y => some (min x y)) none

/-- NumPy `>=` on two nullable cells. -/
def oGeV (a b : V) : Bool :=
  match a, b with
  | some x, some y => decide (y ≤ x)
  | _, _ => false

/-- NumPy `<=` on two nullable cells. -/
def oLeV (a b : V) : Bool :=
  match a, b with
  | some x, some y => decide (x ≤ y)
  | _, _ => false

def implausiblePriceKeep (r : Row) : Bool :=
  (r.high.isNone || oGeV r.high (maxSkipNa [r.opn, r.close, r.low])) &&
  (r.low.isNone || oLeV r.low (minSkipNa [r.opn, r.close, r.high]))

def filter_implausible_prices_core (p : List Row) : List Row :=
  p.filter implausiblePriceKeep

def filter_implausible_prices_run (p : List Row) : Except String (List Row) :=
  guardDiv p.length (filter_implausible_prices_core p)

/-! ### Stage: extreme-price filter (`filter_extreme_prices`) -/

def filter_extreme_prices_core (p : List Row) (ts : ℚ) : List Row :=
  p.filter (fun r => [r.opn, r.high, r.low, r.close].all (fun x => oLeC x ts || x.isNone))

def filter_extreme_prices_run (p : List Row) (ts : ℚ) :
    Except String (List Row) :=
  guardDiv p.length (filter_extreme_prices_core p ts)

/-! ### Stage: decimal-error filter (`filter_decimal_errors`) -/

def filter_decimal_errors_core (p : List Row) (up down : ℚ) : List Row :=
  p.filter (fun r => oLeC r.ret up && oGeC r.ret down)

def filter_decimal_errors_run (p : List Row) (up down : ℚ) :
    Except String (List Row) :=
  guardDiv p.length (filter_decimal_errors_core p up down)

/-! ### Stage: no-trading-activity filter (`filter_no_trading_activity`) -/

/-- `High`, `Low` and `Volume` all equal to the previous row's values
(NumPy equality: any null makes the comparison false). -/
def rowEq3 (a b : Row) : Bool :=
  oEq a.high b.high && oEq a.low b.low && oEq a.volume b.volume

/-- Drop every row identical (in the `rowEq3` sense) to the *original*
previous row of the group; the comparison row advances even when dropped. -/
def dropIdenticalFrom (prev : Row) : List Row → List Row
  | [] => []
  | y :: ys =>
    if rowEq3 y prev then dropIdenticalFrom y ys else y :: dropIdenticalFrom y ys

/-- `drop_identical` on one stock group; the first row is never dropped. -/
def dropIdentical : List Row → List Row
  | [] => []
  | x :: xs => x :: dropIdenticalFrom x xs

def filter_no_trading_activity_core (p : List Row) : List Row :=
  applyByStock dropIdentical p

def filter_no_trading_activity_run (p : List Row) : Except String (List Row) :=
  guardDiv p.length (filter_no_trading_activity_core p)

/-! ### Stage: adjustment-inconsistency filter
(`filter_adjustment_inconsistencies`, (18)) -/

/-- Value of the float expression `|UnadjClose - Close*AdjFactor| /
(Close*AdjFactor)`: NaN when an input is null or when `0/0` occurs,
`+inf` when a nonzero numerator is divided by zero. -/
inductive AVal where
  | nan
  | inf
  | val (q : ℚ)
deriving DecidableEq, Repr

def adjDiff (r : Row) : AVal :=
  match r.close, r.adjF, r.unadjC with
  | some c, some a, some u =>
    let e := c * a
    if e = 0 then (if u = 0 then .nan else .inf) else .val (|u - e| / e)
  | _, _, _ => .nan

/-- `(diff <= threshold) | diff.isna()`: NaN passes, `+inf` fails. -/
def adjKeep (ts : ℚ) (r : Row) : Bool :=
  match adjDiff r with
  | .nan => true
  | .inf => false
  | .val q => decide (q ≤ ts)

def filter_adjustment_inconsistencies_core (p : List Row) (ts : ℚ) : List Row :=
  p.filter (adjKeep ts)

def filter_adjustment_inconsistencies_run (p : List Row) (ts : ℚ) :
    Except String (List Row) :=
  guardDiv p.length (filter_adjustment_inconsistencies_core p ts)

/-! ### Stage: missing-data handling (`handle_missings`, "filter (0)") -/

/-- One forward-fill step: every fill column (the eight model-critical
columns and `MarketCAP`) takes the previous filled row's value when null. -/
def hmFfillStep (prev r : Row) : Row :=
  { r with
    opn := r.opn.orElse (fun _ => prev.opn),
    high := r.high.orElse (fun _ => prev.high),
    low := r.low.orElse (fun _ => prev.low),
    close := r.close.orElse (fun _ => prev.close),
    volume := r.volume.orElse (fun _ => prev.volume),
    retIdx := r.retIdx.orElse (fun _ => prev.retIdx),
    adjF := r.adjF.orElse (fun _ => prev.adjF),
    unadjC := r.unadjC.orElse (fun _ => prev.unadjC),
    mcap := r.mcap.orElse (fun _ => prev.mcap) }

def hmFfillFrom (prev : Row) : List Row → List Row
  | [] => []
  | r :: rest =>
    let r2 := hmFfillStep prev r
    r2 :: hmFfillFrom r2 rest

/-- Forward fill of the fill columns over a stock group. -/
def hmFfill : List Row → List Row
  | [] => []
  | r :: rest => r :: hmFfillFrom r rest

def mcapFillFrom (prev : V) : List Row → List Row
  | [] => []
  | r :: rest =>
    let m := r.mcap.orElse (fun _ => prev)
    { r with mcap := m } :: mcapFillFrom m rest

/-- Backward fill of `MarketCAP` (the `bfill` after the `ffill`). -/
def hmBfillMcap (l : List Row) : List Row :=
  (mcapFillFrom none l.reverse).reverse

/-- All eight model-critical (`ffill_cols`) cells are non-null. -/
def ffillColsSome (r : Row) : Bool :=
  r.opn.isSome && r.high.isSome && r.low.isSome && r.close.isSome &&
    r.volume.isSome && r.retIdx.isSome && r.adjF.isSome && r.unadjC.isSome

def minDateOf (l : List Row) : Option Dt :=
  l.foldr
    (fun r acc =>
      match acc with
      | none => some r.date
      | some d => some (if dtLe r.date d then r.date else d))
    none

/-- `drop_and_fill_missings` on one stock group: truncate before the first
date where all `ffill_cols` are simultaneously non-null (empty result when
no such row exists), then forward fill and backward fill. -/
def hmDropAndFill (g : List Row) : List Row :=
  match minDateOf (g.filter ffillColsSome) with
  | none => []
  | some d0 => hmBfillMcap (hmFfill (g.filter (fun r => dtLe d0 r.date)))

def handle_missings_core (c : String) (p : List Row) (s : List SRow) :
    List Row :=
  let cs := (s.filter (fun sr => sr.geogn == c)).map SRow.dscd
  let pf := applyByStock hmDropAndFill (p.filter (fun r => cs.contains r.stock))
  pf.map
    (fun r =>
      if r.mcap.isNone then
        { r with
          mcap :=
            medianOfQ
              (dropNone ((pf.filter (fun r2 => decide (r2.date = r.date))).map Row.mcap)) }
      else r)

/-- This stage's removal report is guarded (`if panel.shape[0] == 0`), so
the run never fails. -/
def handle_missings_run (c : String) (p : List Row) (s : List SRow) :
    Except String (List Row) :=
  .ok (handle_missings_core c p s)

/-! ### Final cleanup (driver scripts): null infinities (a no-op in this
finite-value model), drop rows with null `Return`, and restrict Statics to
the securities still present in the final Panel. -/

def final_cleanup (p : List Row) (s : List SRow) : List Row × List SRow :=
  let pf := p.filter (fun r => r.ret.isSome)
  (pf, s.filter (fun sr => (pf.map Row.stock).contains sr.dscd))

/-! ### Sample rows and panels for the concrete claim instances -/

def blankRow : Row :=
  ⟨"", ⟨2000, 1, 1⟩, none, none, none, none, none, none, none, none, none, none⟩

/-- A row carrying only a stock, date and `Return`. -/
def retRow (s : String) (d : Dt) (x : V) : Row :=
  { blankRow with stock := s, date := d, ret := x }

/-- A row carrying only a stock, date and `UnadjClose`. -/
def pennyRow (s : String) (d : Dt) (u : V) : Row :=
  { blankRow with stock := s, date := d, unadjC := u }

/-- A row carrying only `Close`, `AdjFactor` and `UnadjClose`. -/
def adjRow (c a u : V) : Row :=
  { blankRow with close := c, adjF := a, unadjC := u }

def blankSRow : SRow := ⟨"", none, "", "", "", "", "", none⟩

/-- A Statics row carrying only a `DSCD`. -/
def srowD (id : String) : SRow := { blankSRow with dscd := id }

/-- Ten stocks; in January each has one row whose `UnadjClose` runs through
`1, …, 10`, and in February each has one further row. -/
def pennyDemoPanel : List Row :=
  [pennyRow "S01" ⟨2020, 1, 15⟩ (some 1),
   pennyRow "S02" ⟨2020, 1, 15⟩ (some 2),
   pennyRow "S03" ⟨2020, 1, 15⟩ (some 3),
   pennyRow "S04" ⟨2020, 1, 15⟩ (some 4),
   pennyRow "S05" ⟨2020, 1, 15⟩ (some 5),
   pennyRow "S06" ⟨2020, 1, 15⟩ (some 6),
   pennyRow "S07" ⟨2020, 1, 15⟩ (some 7),
   pennyRow "S08" ⟨2020, 1, 15⟩ (some 8),
   pennyRow "S09" ⟨2020, 1, 15⟩ (some 9),
   pennyRow "S10" ⟨2020, 1, 15⟩ (some 10),
   pennyRow "S01" ⟨2020, 2, 15⟩ (some 5),
   pennyRow "S02" ⟨2020, 2, 15⟩ (some 5),
   pennyRow "S03" ⟨2020, 2, 15⟩ (some 5),
   pennyRow "S04" ⟨2020, 2, 15⟩ (some 5),
   pennyRow "S05" ⟨2020, 2, 15⟩ (some 5),
   pennyRow "S06" ⟨2020, 2, 15⟩ (some 5),
   pennyRow "S07" ⟨2020, 2, 15⟩ (some 5),
   pennyRow "S08" ⟨2020, 2, 15⟩ (some 5),
   pennyRow "S09" ⟨2020, 2, 15⟩ (some 5),
   pennyRow "S10" ⟨2020, 2, 15⟩ (some 5)]

/-- The panel of `pennyDemoPanel` after the penny-stock filter at the 10th
percentile: the February row of `"S01"` (previous-month close 1, below the
threshold 1.9) is gone. -/
def pennyDemoExpected : List Row :=
  [pennyRow "S01" ⟨2020, 1, 15⟩ (some 1),
   pennyRow "S02" ⟨2020, 1, 15⟩ (some 2),
   pennyRow "S03" ⟨2020, 1, 15⟩ (some 3),
   pennyRow "S04" ⟨2020, 1, 15⟩ (some 4),
   pennyRow "S05" ⟨2020, 1, 15⟩ (some 5),
   pennyRow "S06" ⟨2020, 1, 15⟩ (some 6),
   pennyRow "S07" ⟨2020, 1, 15⟩ (some 7),
   pennyRow "S08" ⟨2020, 1, 15⟩ (some 8),
   pennyRow "S09" ⟨2020, 1, 15⟩ (some 9),
   pennyRow "S10" ⟨2020, 1, 15⟩ (some 10),
   pennyRow "S02" ⟨2020, 2, 15⟩ (some 5),
   pennyRow "S03" ⟨2020, 2, 15⟩ (some 5),
   pennyRow "S04" ⟨2020, 2, 15⟩ (some 5),
   pennyRow "S05" ⟨2020, 2, 15⟩ (some 5),
   pennyRow "S06" ⟨2020, 2, 15⟩ (some 5),
   pennyRow "S07" ⟨2020, 2, 15⟩ (some 5),
   pennyRow "S08" ⟨2020, 2, 15⟩ (some 5),
   pennyRow "S09" ⟨2020, 2, 15⟩ (some 5),
   pennyRow "S10" ⟨2020, 2, 15⟩ (some 5)]

/-- Stocks `A`, `B`, `C` with January closes `0`, `1`, `7/10`; in February
`A` and `C` have one row each while `B` has three. -/
def pennyCexPanel : List Row :=
  [pennyRow "A" ⟨2020, 1, 15⟩ (some 0),
   pennyRow "B" ⟨2020, 1, 15⟩ (some 1),
   pennyRow "C" ⟨2020, 1, 15⟩ (some (7 / 10)),
   pennyRow "A" ⟨2020, 2, 1⟩ (some 5),
   pennyRow "B" ⟨2020, 2, 1⟩ (some 5),
   pennyRow "B" ⟨2020, 2, 2⟩ (some 5),
   pennyRow "B" ⟨2020, 2, 3⟩ (some 5),
   pennyRow "C" ⟨2020, 2, 1⟩ (some 5)]

/-- The February row of stock `C` in `pennyCexPanel`. -/
def pennyCexRowC : Row := pennyRow "C" ⟨2020, 2, 1⟩ (some 5)

/-! ### Stage: short-history filter (`filter_short_history_stocks`, (12)) -/

/-- Day number of a civil date (days since 1970-01-01, the standard
era-based conversion); models `(a - b).days` on timestamps as
`dayNumber a - dayNumber b`. -/
def dayNumber (a : Dt) : Int :=
  let y := if a.m ≤ 2 then a.y - 1 else a.y
  let m := if a.m ≤ 2 then a.m + 9 else a.m - 3
  let era := Int.fdiv y 400
  let yoe := y - era * 400
  let doy := Int.fdiv (153 * m + 2) 5 + a.d - 1
  let doe := yoe * 365 + Int.fdiv yoe 4 - Int.fdiv yoe 100 + doy
  era * 146097 + doe - 719468

def maxDateOf (l : List Row) : Option Dt :=
  l.foldr
    (fun r acc =>
      match acc with
      | none => some r.date
      | some d => some (if dtLe d r.date then r.date else d))
    none

/-- `stock_filter`: keep the whole stock when its first observation lies
within `threshold` days of the panel's overall last date, else require at
least `threshold` observations. -/
def shortHistoryKeep (p : List Row) (threshold : Nat) (s : String) : Bool :=
  match maxDateOf p, minDateOf (groupOf p s) with
  | some dmax, some dmin =>
    if dayNumber dmax - dayNumber dmin < (threshold : Int) then true
    else decide (threshold ≤ (groupOf p s).length)
  | _, _ => false

def filter_short_history_stocks_core (p : List Row) (threshold : Nat) :
    List Row :=
  p.filter (fun r => shortHistoryKeep p threshold r.stock)

def filter_short_history_stocks_run (p : List Row) (threshold : Nat) :
    Except String (List Row) :=
  guardDiv p.length (filter_short_history_stocks_core p threshold)

/-! ### Stage: extreme-return filter, quantile variant
(`filter_extreme_returns`) -/

def dateRetQuantile (p : List Row) (q : ℚ) (d : Dt) : Option ℚ :=
  quantileLin q (dropNone ((p.filter (fun r => decide (r.date = d))).map Row.ret))

/-- Keep rows inside the per-date `[lower, upper]` quantile band; a null
`Return` (or a null band on a date without non-null returns) fails both
comparisons and is dropped. -/
def extremeReturnsKeep (p : List Row) (lower upper : ℚ) (r : Row) : Bool :=
  match r.ret, dateRetQuantile p lower r.date, dateRetQuantile p upper r.date with
  | some x, some lo, some hi => decide (lo ≤ x) && decide (x ≤ hi)
  | _, _, _ => false

def filter_extreme_returns_core (p : List Row) (lower upper : ℚ) : List Row :=
  p.filter (extremeReturnsKeep p lower upper)

def filter_extreme_returns_run (p : List Row) (lower upper : ℚ) :
    Except String (List Row) :=
  guardDiv p.length (filter_extreme_returns_core p lower upper)

/-! ### Stage: extreme-return filter, median/std variant
(`filter_extreme_returns2`) -/

/-- Decides `c ≤ n·√v` for `v ≥ 0` without a square root, by sign analysis
and squaring (exact over ℚ). -/
def leMulSqrt (c n v : ℚ) : Bool :=
  if 0 ≤ n then (if c ≤ 0 then true else decide (c * c ≤ n * n * v))
  else (if 0 < c then false else decide (n * n * v ≤ c * c))

def dateRetMed (p : List Row) (d : Dt) : Option ℚ :=
  medianOfQ (dropNone ((p.filter (fun r => decide (r.date = d))).map Row.ret))

def dateRetVar (p : List Row) (d : Dt) : Option ℚ :=
  sampleVar (dropNone ((p.filter (fun r => decide (r.date = d))).map Row.ret))

/-- `Return.isna() | (median - n·std ≤ Return ≤ median + n·std)`; the band
is null (and the row dropped unless its `Return` is null) when the date has
fewer than two non-null returns. -/
def extremeReturns2Keep (p : List Row) (n : ℚ) (r : Row) : Bool :=
  r.ret.isNone ||
    (match r.ret, dateRetMed p r.date, dateRetVar p r.date with
     | some x, some med, some v => leMulSqrt (x - med) n v && leMulSqrt (med - x) n v
     | _, _, _ => false)

def filter_extreme_returns2_core (p : List Row) (n : ℚ) : List Row :=
  p.filter (extremeReturns2Keep p n)

def filter_extreme_returns2_run (p : List Row) (n : ℚ) :
    Except String (List Row) :=
  guardDiv p.length (filter_extreme_returns2_core p n)
theorem runStart_le (xs : List V) (i : Nat) : runStart xs i ≤ i := by
  induction i with
  | zero => simp [runStart]
  | succ n ih =>
    unfold runStart
    split
    · omega
    · omega

theorem runStart_isBreak (xs : List V) (i : Nat) : runBreak xs (runStart xs i) := by
  induction i with
  | zero => left; rfl
  | succ n ih =>
    unfold runStart
    split
    · exact ih
    · right
      rename_i hne
      rw [Nat.add_sub_cancel]
      exact Bool.eq_false_iff.mpr hne

theorem le_runStart_of_break (xs : List V) (i j : Nat) (hj : j ≤ i)
    (hb : runBreak xs j) : j ≤ runStart xs i := by
  induction i with
  | zero => omega
  | succ n ih =>
    unfold runStart
    split
    · rcases Nat.lt_or_ge j (n + 1) with h | h
      · exact ih (by omega)
      · have hj' : j = n + 1 := by omega
        subst hj'
        rcases hb with h0 | hne
        · omega
        · simp_all
    · omega

theorem runCtrFrom_length (prev : V) (run : Nat) (ys : List V) :
    (runCtrFrom prev run ys).length = ys.length := by
  induction ys generalizing prev run with
  | nil => rfl
  | cons y ys ih => simp [runCtrFrom, ih]

theorem runCtr_length (xs : List V) : (runCtr xs).length = xs.length := by
  cases xs with
  | nil => rfl
  | cons x xs => simp [runCtr, runCtrFrom_length]

/-- The counter recurrence, stated over `getD`: entry `i+1` of
`runCtrFrom prev run (y :: ys)` relates to entry `i`. -/
theorem runCtrFrom_getD_succ (ys : List V) :
    ∀ (prev : V) (run : Nat) (i : Nat), i + 1 < ys.length →
      (runCtrFrom prev run ys).getD (i + 1) 0 =
        if oEq (ys.getD (i + 1) none) (ys.getD i none) then
          (runCtrFrom prev run ys).getD i 0 + 1
        else 1 := by
  induction ys with
  | nil => intro prev run i h; simp at h
  | cons y ys ih =>
    intro prev run i h
    cases i with
    | zero =>
      cases ys with
      | nil => simp at h
      | cons z zs =>
        simp [runCtrFrom]
    | succ n =>
      have h' : n + 1 < ys.length := by
        simpa using Nat.lt_of_succ_lt_succ h
      simpa [runCtrFrom] using ih y (if oEq y prev then run + 1 else 1) n h'

theorem runCtr_getD_zero (x : V) (xs : List V) :
    (runCtr (x :: xs)).getD 0 0 = 1 := rfl

theorem runCtr_getD_succ (xs : List V) (i : Nat) (h : i + 1 < xs.length) :
    (runCtr xs).getD (i + 1) 0 =
      if oEq (xs.getD (i + 1) none) (xs.getD i none) then
        (runCtr xs).getD i 0 + 1
      else 1 := by
  cases xs with
  | nil => simp at h
  | cons x xs =>
    cases i with
    | zero =>
      cases xs with
      | nil => simp at h
      | cons z zs => simp [runCtr, runCtrFrom]
    | succ n =>
      have h' : n + 1 < xs.length := by simpa using Nat.lt_of_succ_lt_succ h
      have := runCtrFrom_getD_succ xs x 1 n h'
      simpa [runCtr] using this

theorem runCtr_eq_sub_runStart (xs : List V) (i : Nat) (h : i < xs.length) :
    (runCtr xs).getD i 0 = i - runStart xs i + 1 := by
  induction i with
  | zero =>
    cases xs with
    | nil => simp at h
    | cons x xs => rfl
  | succ n ih =>
    have hs := runStart_le xs n
    rw [runCtr_getD_succ xs n h]
    unfold runStart
    split
    · rw [ih (Nat.lt_of_succ_lt h)]
      omega
    · omega

/-- A row of a per-stock series survives the stale-price filter iff a run
break occurs within the 30 most recent positions. -/
theorem staleKeep_iff_break (xs : List V) (i : Nat) (h : i < xs.length) :
    ((runCtr xs).getD i 0 ≤ 30 ↔ ∃ j, j ≤ i ∧ i ≤ j + 29 ∧ runBreak xs j) := by
  rw [runCtr_eq_sub_runStart xs i h]
  constructor
  · intro hle
    refine ⟨runStart xs i, runStart_le xs i, ?_, runStart_isBreak xs i⟩
    have := runStart_le xs i
    omega
  · rintro ⟨j, hji, hwin, hb⟩
    have := le_runStart_of_break xs i j hji hb
    have := runStart_le xs i
    omega

theorem staleKeep_getD (xs : List V) (i : Nat) (h : i < xs.length) :
    (staleKeep xs).getD i false = decide ((runCtr xs).getD i 0 ≤ 30) := by
  unfold staleKeep
  have h' : i < (runCtr xs).length := by rw [runCtr_length]; exact h
  rw [List.getD_eq_getElem?_getD, List.getElem?_map,
    List.getElem?_eq_getElem h', List.getD_eq_getElem?_getD,
    List.getElem?_eq_getElem h']
  rfl

/-! ### Generic lemmas -/

theorem filter_idem {α : Type} (f : α → Bool) (l : List α) :
    (l.filter f).filter f = l.filter f := by
  induction l with
  | nil => rfl
  | cons x xs ih =>
    by_cases h : f x <;> simp [List.filter_cons, h, ih]

theorem mem_uniq {α : Type} [DecidableEq α] {x : α} {l : List α} :
    x ∈ uniq l ↔ x ∈ l := by
  induction l with
  | nil => simp [uniq]
  | cons a as ih =>
    constructor
    · intro h
      rcases List.mem_cons.mp h with h | h
      · simp [h]
      · exact List.mem_cons_of_mem a (ih.mp (List.mem_filter.mp h).1)
    · intro h
      rcases List.mem_cons.mp h with h | h
      · simp [uniq, h]
      · by_cases hax : x = a
        · simp [uniq, hax]
        · exact List.mem_cons_of_mem a
            (List.mem_filter.mpr ⟨ih.mpr h, by simpa using hax⟩)

theorem uniq_nodup {α : Type} [DecidableEq α] (l : List α) : (uniq l).Nodup := by
  induction l with
  | nil => simp [uniq]
  | cons a as ih =>
    refine List.Nodup.cons ?_ (List.Nodup.filter _ ih)
    intro hmem
    have h2 := (List.mem_filter.mp hmem).2
    simp at h2

theorem maskFilter_length_le {α : Type} (l : List α) (m : List Bool) :
    (maskFilter l m).length ≤ l.length := by
  induction l generalizing m with
  | nil => simp [maskFilter]
  | cons x xs ih =>
    cases m with
    | nil => simp [maskFilter]
    | cons b bs =>
      cases b with
      | false =>
        have he : maskFilter (x :: xs) (false :: bs) = maskFilter xs bs := by
          simp [maskFilter]
        rw [he]
        exact Nat.le_succ_of_le (ih bs)
      | true =>
        have he : maskFilter (x :: xs) (true :: bs) = x :: maskFilter xs bs := by
          simp [maskFilter]
        rw [he]
        simpa using Nat.succ_le_succ (ih bs)

theorem mem_insertBy {α : Type} (le : α → α → Bool) (x y : α) (l : List α) :
    y ∈ insertBy le x l ↔ y = x ∨ y ∈ l := by
  induction l with
  | nil => simp [insertBy]
  | cons a as ih =>
    unfold insertBy
    by_cases h : le a x
    · rw [if_pos h]
      simp only [List.mem_cons, ih]
      tauto
    · rw [if_neg h]
      simp only [List.mem_cons]

theorem mem_isortBy {α : Type} (le : α → α → Bool) (x : α) (l : List α) :
    x ∈ isortBy le l ↔ x ∈ l := by
  induction l with
  | nil => simp [isortBy]
  | cons a as ih => simp [isortBy, mem_insertBy, ih]

theorem insertBy_length {α : Type} (le : α → α → Bool) (x : α) (l : List α) :
    (insertBy le x l).length = l.length + 1 := by
  induction l with
  | nil => rfl
  | cons a as ih =>
    by_cases h : le a x <;> simp [insertBy, h, ih]

theorem isortBy_length {α : Type} (le : α → α → Bool) (l : List α) :
    (isortBy le l).length = l.length := by
  induction l with
  | nil => rfl
  | cons a as ih => simp [isortBy, insertBy_length, ih]

theorem sortByDate_length (l : List Row) : (sortByDate l).length = l.length :=
  isortBy_length _ l

theorem mem_sortByDate (r : Row) (l : List Row) :
    r ∈ sortByDate l ↔ r ∈ l := mem_isortBy _ r l

theorem filter_split_length {α : Type} (f : α → Bool) (l : List α) :
    (l.filter f).length + (l.filter (fun a => !f a)).length = l.length := by
  induction l with
  | nil => rfl
  | cons x xs ih =>
    by_cases h : f x <;> simp [List.filter_cons, h] <;> omega

theorem groupOf_eq_of_ne (p : List Row) (k s : String) (hne : s ≠ k) :
    groupOf (p.filter (fun r => !(r.stock == k))) s = groupOf p s := by
  unfold groupOf
  rw [List.filter_filter]
  apply List.filter_congr
  intro r _
  by_cases h : r.stock = s
  · simp [h, hne]
  · simp [h]

theorem length_filter_key_sum (keys : List String) (p : List Row)
    (hnd : keys.Nodup) (hcov : ∀ r ∈ p, r.stock ∈ keys) :
    (keys.map (fun s => (groupOf p s).length)).sum = p.length := by
  induction keys generalizing p with
  | nil =>
    cases p with
    | nil => simp
    | cons r rs => exact absurd (hcov r (by simp)) (by simp)
  | cons k ks ih =>
    have hsplit := filter_split_length (fun r => r.stock == k) p
    have hrest :
        (ks.map (fun s => (groupOf p s).length)).sum =
          (p.filter (fun r => !(r.stock == k))).length := by
      have hnd' := (List.nodup_cons.mp hnd).2
      have hknotin := (List.nodup_cons.mp hnd).1
      have hmapeq :
          ks.map (fun s => (groupOf p s).length) =
            ks.map (fun s => (groupOf (p.filter (fun r => !(r.stock == k))) s).length) := by
        apply List.map_congr_left
        intro s hs
        have hne : s ≠ k := fun h => hknotin (h ▸ hs)
        rw [groupOf_eq_of_ne p k s hne]
      rw [hmapeq]
      apply ih _ hnd'
      intro r hr
      have hmem := List.mem_filter.mp hr
      have hcov' := hcov r hmem.1
      have hne : r.stock ≠ k := by
        intro h
        have := hmem.2
        simp [h] at this
      rcases List.mem_cons.mp hcov' with h | h
      · exact absurd h hne
      · exact h
    simp only [List.map_cons, List.sum_cons, hrest]
    unfold groupOf at hsplit ⊢
    omega

theorem applyByStock_length_le (f : List Row → List Row)
    (hf : ∀ l, (f l).length ≤ l.length) (p : List Row) :
    (applyByStock f p).length ≤ p.length := by
  unfold applyByStock
  rw [List.length_flatMap]
  simp only [Function.comp_def]
  have h1 :
      ((stocksOf p).map (fun s => (f (groupOf p s)).length)).sum ≤
        ((stocksOf p).map (fun s => (groupOf p s).length)).sum := by
    apply List.sum_le_sum
    intro s _
    exact hf (groupOf p s)
  have h2 := length_filter_key_sum (stocksOf p) p (uniq_nodup _) ?_
  · omega
  · intro r hr
    exact mem_uniq.mpr (List.mem_map.mpr ⟨r, hr, rfl⟩)

/-! ### Claim C2 -/

/-- **C2** (functional_correctness, confirmed): for every per-stock
date-ordered `ReturnIndex` series, the stale-price filter keeps position
`i` iff a run break (start of series or a value change) lies within the
last 30 positions — i.e. a row is dropped iff it lies beyond position 30 of
a run of consecutive equal `ReturnIndex` values, the counter resetting on
any value change.  In particular a single-stock series with a 35-day run of
identical values keeps exactly the first 30 rows of the run and drops days
31–35. -/
theorem C2_stale_price_run_length :
    (∀ (xs : List V) (i : Fin xs.length),
        ((staleKeep xs).getD i.val false = true ↔
          ∃ j, j ≤ i.val ∧ i.val ≤ j + 29 ∧ runBreak xs j)) ∧
    filter_stale_prices_stock (List.replicate 35 (some 1)) =
      List.replicate 30 (some 1) ∧
    filter_stale_prices_stock (some 5 :: List.replicate 35 (some 7)) =
      some 5 :: List.replicate 30 (some 7) := by
  refine ⟨?_, ?_, ?_⟩
  · intro xs i
    rw [staleKeep_getD xs i.val i.isLt, decide_eq_true_eq]
    exact staleKeep_iff_break xs i.val i.isLt
  · decide
  · decide

/-! ### Claim C3 -/

theorem getD_map_of_lt {α β : Type} (f : α → β) (l : List α) (t : Nat)
    (h : t < l.length) (d : β) (e : α) :
    (l.map f).getD t d = f (l.getD t e) := by
  rw [List.getD_eq_getElem?_getD, List.getElem?_map, List.getElem?_eq_getElem h,
    List.getD_eq_getElem?_getD, List.getElem?_eq_getElem h]
  rfl

theorem outlierMask_length (up down : ℚ) (xs : List V) :
    (outlierMask up down xs).length = xs.length := by
  induction xs with
  | nil => rfl
  | cons x tail ih =>
    cases tail with
    | nil => rfl
    | cons y rest => simpa [outlierMask] using ih

theorem outlierMask_getD (up down : ℚ) (xs : List V) (t : Nat)
    (h : t < xs.length) :
    (outlierMask up down xs).getD t false = flagAt up down xs t := by
  induction xs generalizing t with
  | nil => simp at h
  | cons x tail ih =>
    cases tail with
    | nil =>
      cases t with
      | zero => simp [outlierMask, flagAt, oGtC, oLtC]
      | succ n => simp at h
    | cons y rest =>
      cases t with
      | zero => simp [outlierMask, flagAt]
      | succ n =>
        have h' : n < (y :: rest).length := by
          simpa using Nat.lt_of_succ_lt_succ h
        have hrec := ih n h'
        simp only [outlierMask, List.getD_cons_succ]
        rw [hrec]
        simp [flagAt]

theorem orShiftFrom_length (prev : Bool) (ms : List Bool) :
    (orShiftFrom prev ms).length = ms.length := by
  induction ms generalizing prev with
  | nil => rfl
  | cons b bs ih => simp [orShiftFrom, ih]

theorem orShiftFrom_getD (ms : List Bool) :
    ∀ (prev : Bool) (t : Nat), t < ms.length →
      (orShiftFrom prev ms).getD t false =
        (ms.getD t false || (if t = 0 then prev else ms.getD (t - 1) false)) := by
  induction ms with
  | nil => intro prev t h; simp at h
  | cons b bs ih =>
    intro prev t h
    cases t with
    | zero => simp [orShiftFrom]
    | succ n =>
      have h' : n < bs.length := by simpa using Nat.lt_of_succ_lt_succ h
      have hrec := ih b n h'
      cases n with
      | zero => simpa [orShiftFrom] using hrec
      | succ m => simpa [orShiftFrom] using hrec

theorem outlierKeep_getD (up down : ℚ) (xs : List V) (t : Nat)
    (h : t < xs.length) :
    (outlierKeep up down xs).getD t false =
      !(flagAt up down xs t || (decide (1 ≤ t) && flagAt up down xs (t - 1))) := by
  unfold outlierKeep toReplace
  have hlen1 : (outlierMask up down xs).length = xs.length :=
    outlierMask_length up down xs
  have hlen2 : (orShiftFrom false (outlierMask up down xs)).length = xs.length := by
    rw [orShiftFrom_length, hlen1]
  rw [getD_map_of_lt (fun b => !b) _ t (by omega) false false]
  rw [orShiftFrom_getD _ false t (by omega)]
  rw [outlierMask_getD up down xs t h]
  cases t with
  | zero => simp
  | succ n =>
    have hn : n < xs.length := by omega
    simp only [Nat.add_sub_cancel, if_neg (Nat.succ_ne_zero n)]
    rw [outlierMask_getD up down xs n hn]
    simp

/-- **C3** (functional_correctness, confirmed): under drop mode the
outlier-reversal filter keeps position `t` of a date-ordered per-stock
`Return` series iff neither `t` nor `t-1` starts a reversal pair
(`Return_t > up ∧ Return_{t+1} < down` or the symmetric case) — so exactly
the flagged pairs `(t, t+1)` are removed; with defaults `up=1.0`,
`down=-0.5` the series `[0.2, 1.5, -0.6, 0.1]` keeps exactly positions 0
and 3, i.e. the 2nd and 3rd rows are removed. -/
theorem C3_outlier_reversal_pairs :
    (∀ (up down : ℚ) (xs : List V) (t : Fin xs.length),
        (outlierKeep up down xs).getD t.val false =
          !(flagAt up down xs t.val ||
            (decide (1 ≤ t.val) && flagAt up down xs (t.val - 1)))) ∧
    outlierKeptIdx 1 (-(1 / 2))
        [some (1 / 5), some (3 / 2), some (-(3 / 5)), some (1 / 10)] = [0, 3] := by
  refine ⟨?_, ?_⟩
  · intro up down xs t
    exact outlierKeep_getD up down xs t.val t.isLt
  · decide

/-! ### Claim C4 -/

theorem hmFfillFrom_length (l : List Row) :
    ∀ prev, (hmFfillFrom prev l).length = l.length := by
  induction l with
  | nil => intro prev; rfl
  | cons r rest ih => intro prev; simp [hmFfillFrom, ih]

theorem hmFfill_length (l : List Row) : (hmFfill l).length = l.length := by
  cases l with
  | nil => rfl
  | cons r rest => simp [hmFfill, hmFfillFrom_length]

theorem mcapFillFrom_length (l : List Row) :
    ∀ prev, (mcapFillFrom prev l).length = l.length := by
  induction l with
  | nil => intro prev; rfl
  | cons r rest ih => intro prev; simp [mcapFillFrom, ih]

theorem hmBfillMcap_length (l : List Row) : (hmBfillMcap l).length = l.length := by
  simp [hmBfillMcap, mcapFillFrom_length]

theorem hmDropAndFill_length_le (g : List Row) :
    (hmDropAndFill g).length ≤ g.length := by
  unfold hmDropAndFill
  cases minDateOf (g.filter ffillColsSome) with
  | none => simp
  | some d0 =>
    simp only [hmBfillMcap_length, hmFfill_length]
    exact List.length_filter_le _ _

theorem dropIdenticalFrom_length_le (l : List Row) :
    ∀ prev, (dropIdenticalFrom prev l).length ≤ l.length := by
  induction l with
  | nil => intro prev; simp [dropIdenticalFrom]
  | cons y ys ih =>
    intro prev
    unfold dropIdenticalFrom
    by_cases h : rowEq3 y prev
    · rw [if_pos h]
      exact Nat.le_succ_of_le (ih y)
    · rw [if_neg h]
      simpa using Nat.succ_le_succ (ih y)

theorem dropIdentical_length_le (l : List Row) :
    (dropIdentical l).length ≤ l.length := by
  cases l with
  | nil => simp [dropIdentical]
  | cons x xs =>
    simpa [dropIdentical] using Nat.succ_le_succ (dropIdenticalFrom_length_le xs x)

theorem truncGroup_length_le (su : List SRow) (g : List Row) :
    (truncGroup su g).length ≤ g.length := by
  unfold truncGroup
  have hlen : (sortByDate g).length = g.length := sortByDate_length g
  cases hg : sortByDate g with
  | nil => simp
  | cons r0 rest =>
    rw [hg] at hlen
    dsimp only
    split
    · rename_i dd _
      rw [List.length_reverse]
      calc ((((r0 :: rest).filter (fun r => dtLe r.date dd)).reverse.dropWhile isPad)).length
          ≤ ((r0 :: rest).filter (fun r => dtLe r.date dd)).reverse.length :=
            (List.dropWhile_sublist _).length_le
        _ = ((r0 :: rest).filter (fun r => dtLe r.date dd)).length := List.length_reverse _
        _ ≤ (r0 :: rest).length := List.length_filter_le _ _
        _ = g.length := hlen
    · exact hlen.le

theorem filter_outlier_stock_length_le (up down : ℚ) (mode : OutlierMode)
    (g : List Row) : (filter_outlier_stock up down mode g).length ≤ g.length := by
  unfold filter_outlier_stock
  cases mode with
  | drop =>
    calc (maskFilter (sortByDate g) _).length ≤ (sortByDate g).length :=
        maskFilter_length_le _ _
      _ = g.length := sortByDate_length g
  | zero =>
    rw [List.length_map, List.length_zip]
    calc Nat.min (sortByDate g).length _ ≤ (sortByDate g).length := Nat.min_le_left _ _
      _ = g.length := sortByDate_length g

theorem staleGroup_length_le (g : List Row) :
    (maskFilter (sortByDate g) (staleKeep ((sortByDate g).map Row.retIdx))).length ≤
      g.length := by
  calc (maskFilter (sortByDate g) _).length ≤ (sortByDate g).length :=
      maskFilter_length_le _ _
    _ = g.length := sortByDate_length g

/-- **C4** (invariants, confirmed): every modelled filter stage returns a
Panel with at most as many rows as its input Panel, and the small-country
stage (the one stage returning a Statics table) returns a Statics with at
most as many rows as its input Statics. -/
theorem C4_monotonic_narrowing :
    (∀ c p s, (handle_missings_core c p s).length ≤ p.length) ∧
    (∀ c p s, (filter_non_common_stocks_core c p s).length ≤ p.length) ∧
    (∀ c p s, (filter_cross_listings_core c p s).length ≤ p.length) ∧
    (∀ p s, (filter_duplicate_loc_codes_core p s).length ≤ p.length) ∧
    (∀ c p s, (filter_surivorship_bias_core c p s).length ≤ p.length) ∧
    (∀ c p s, (filter_foreign_currency_stocks_core c p s).length ≤ p.length) ∧
    (∀ p s m, ((filter_countries_with_few_stocks_core p s m).1).length ≤ p.length) ∧
    (∀ p s m, ((filter_countries_with_few_stocks_core p s m).2).length ≤ s.length) ∧
    (∀ p, (filter_implausible_returns_core p).length ≤ p.length) ∧
    (∀ p s, (filter_padded_values_delistings_core p s).length ≤ p.length) ∧
    (∀ p, (filter_stale_prices_core p).length ≤ p.length) ∧
    (∀ p, (filter_zero_return_stocks_core p).length ≤ p.length) ∧
    (∀ p ts, (filter_stocks_by_high_volatility_core p ts).length ≤ p.length) ∧
    (∀ p ts, (filter_stocks_by_low_volatility_core p ts).length ≤ p.length) ∧
    (∀ up down mode p, (filter_outlier_errors_core up down mode p).length ≤ p.length) ∧
    (∀ p ts, (filter_holidays_core p ts).length ≤ p.length) ∧
    (∀ p perc, (filter_penny_stocks_core p perc).length ≤ p.length) ∧
    (∀ p, (filter_implausible_prices_core p).length ≤ p.length) ∧
    (∀ p ts, (filter_extreme_prices_core p ts).length ≤ p.length) ∧
    (∀ p up down, (filter_decimal_errors_core p up down).length ≤ p.length) ∧
    (∀ p, (filter_no_trading_activity_core p).length ≤ p.length) ∧
    (∀ p ts, (filter_adjustment_inconsistencies_core p ts).length ≤ p.length) ∧
    (∀ p t, (filter_short_history_stocks_core p t).length ≤ p.length) ∧
    (∀ p lo hi, (filter_extreme_returns_core p lo hi).length ≤ p.length) ∧
    (∀ p n, (filter_extreme_returns2_core p n).length ≤ p.length) := by
  refine ⟨?_, ?_, ?_, ?_, ?_, ?_, ?_, ?_, ?_, ?_, ?_, ?_, ?_, ?_, ?_, ?_, ?_, ?_,
    ?_, ?_, ?_, ?_, ?_, ?_, ?_⟩
  · intro c p s
    unfold handle_missings_core
    rw [List.length_map]
    calc (applyByStock hmDropAndFill _).length ≤ _ :=
        applyByStock_length_le hmDropAndFill hmDropAndFill_length_le _
      _ ≤ p.length := List.length_filter_le _ _
  · intro c p s
    exact List.length_filter_le _ _
  · intro c p s
    exact List.length_filter_le _ _
  · intro p s
    exact List.length_filter_le _ _
  · intro c p s
    exact Nat.le_trans (List.length_filter_le _ _) (List.length_filter_le _ _)
  · intro c p s
    exact List.length_filter_le _ _
  · intro p s m
    exact List.length_filter_le _ _
  · intro p s m
    exact List.length_filter_le _ _
  · intro p
    exact List.length_filter_le _ _
  · intro p s
    unfold filter_padded_values_delistings_core
    calc (applyByStock (truncGroup (dedupByDSCD s)) _).length ≤ _ :=
        applyByStock_length_le _ (truncGroup_length_le (dedupByDSCD s)) _
      _ ≤ p.length := List.length_filter_le _ _
  · intro p
    exact applyByStock_length_le _ staleGroup_length_le p
  · intro p
    exact List.length_filter_le _ _
  · intro p ts
    exact List.length_filter_le _ _
  · intro p ts
    exact List.length_filter_le _ _
  · intro up down mode p
    exact applyByStock_length_le _ (filter_outlier_stock_length_le up down mode) p
  · intro p ts
    exact List.length_filter_le _ _
  · intro p perc
    exact List.length_filter_le _ _
  · intro p
    exact List.length_filter_le _ _
  · intro p ts
    exact List.length_filter_le _ _
  · intro p up down
    exact List.length_filter_le _ _
  · intro p
    exact applyByStock_length_le _ dropIdentical_length_le p
  · intro p ts
    exact List.length_filter_le _ _
  · intro p t
    exact List.length_filter_le _ _
  · intro p lo hi
    exact List.length_filter_le _ _
  · intro p n
    exact List.length_filter_le _ _

/-! ### Claim C9 -/

theorem oEq_symm (a b : V) : oEq a b = oEq b a := by
  cases a <;> cases b <;> simp [oEq, BEq.comm]

theorem oEq_trans {a b c : V} (h1 : oEq a b = true) (h2 : oEq b c = true) :
    oEq a c = true := by
  cases a <;> cases b <;> cases c <;> simp_all [oEq]

theorem rowEq3_trans {a b c : Row} (h1 : rowEq3 a b = true)
    (h2 : rowEq3 b c = true) : rowEq3 a c = true := by
  unfold rowEq3 at *
  simp only [Bool.and_eq_true] at *
  exact ⟨⟨oEq_trans h1.1.1 h2.1.1, oEq_trans h1.1.2 h2.1.2⟩,
    oEq_trans h1.2 h2.2⟩

theorem rowEq3_symm (a b : Row) : rowEq3 a b = rowEq3 b a := by
  unfold rowEq3
  rw [oEq_symm a.high, oEq_symm a.low, oEq_symm a.volume]

theorem dropIdenticalFrom_cons (prev y : Row) (ys : List Row) :
    dropIdenticalFrom prev (y :: ys) =
      if rowEq3 y prev then dropIdenticalFrom y ys
      else y :: dropIdenticalFrom y ys := rfl

theorem dropIdentical_cons (x : Row) (xs : List Row) :
    dropIdentical (x :: xs) = x :: dropIdenticalFrom x xs := rfl

theorem dropIdenticalFrom_double (l : List Row) :
    ∀ p q, (rowEq3 q p = true ∨ p = q) →
      dropIdenticalFrom p (dropIdenticalFrom q l) = dropIdenticalFrom q l := by
  induction l with
  | nil => intro p q _; rfl
  | cons y ys ih =>
    intro p q hpq
    rw [dropIdenticalFrom_cons]
    by_cases hy : rowEq3 y q = true
    · rw [if_pos hy]
      apply ih
      left
      rcases hpq with h | h
      · exact rowEq3_trans hy h
      · rw [← h] at hy; exact hy
    · rw [if_neg hy]
      have hyp : ¬rowEq3 y p = true := by
        rcases hpq with h | h
        · intro hcon
          exact hy (rowEq3_trans hcon (rowEq3_symm q p ▸ h))
        · rw [← h] at hy; exact hy
      rw [dropIdenticalFrom_cons, if_neg hyp, ih y y (Or.inr rfl)]

theorem dropIdentical_idem (l : List Row) :
    dropIdentical (dropIdentical l) = dropIdentical l := by
  cases l with
  | nil => rfl
  | cons x xs =>
    rw [dropIdentical_cons, dropIdentical_cons,
      dropIdenticalFrom_double xs x x (Or.inr rfl)]

theorem mem_dropIdenticalFrom (l : List Row) :
    ∀ prev r, r ∈ dropIdenticalFrom prev l → r ∈ l := by
  induction l with
  | nil => intro prev r h; simp [dropIdenticalFrom] at h
  | cons y ys ih =>
    intro prev r h
    unfold dropIdenticalFrom at h
    by_cases hy : rowEq3 y prev = true
    · rw [if_pos hy] at h
      exact List.mem_cons_of_mem y (ih y r h)
    · rw [if_neg hy] at h
      rcases List.mem_cons.mp h with h | h
      · simp [h]
      · exact List.mem_cons_of_mem y (ih y r h)

theorem mem_dropIdentical (l : List Row) (r : Row) (h : r ∈ dropIdentical l) :
    r ∈ l := by
  cases l with
  | nil => simp [dropIdentical] at h
  | cons x xs =>
    unfold dropIdentical at h
    rcases List.mem_cons.mp h with h | h
    · simp [h]
    · exact List.mem_cons_of_mem x (mem_dropIdenticalFrom xs x r h)

theorem dropIdentical_ne_nil (l : List Row) (h : l ≠ []) :
    dropIdentical l ≠ [] := by
  cases l with
  | nil => exact absurd rfl h
  | cons x xs => simp [dropIdentical]

theorem stock_of_mem_groupOf {p : List Row} {s : String} {r : Row}
    (h : r ∈ groupOf p s) : r.stock = s := by
  have := (List.mem_filter.mp h).2
  simpa using this

theorem uniq_cons {α : Type} [DecidableEq α] (x : α) (xs : List α) :
    uniq (x :: xs) = x :: (uniq xs).filter (fun y => y ≠ x) := rfl

theorem uniq_all_eq_append {α : Type} [DecidableEq α] (k : α) (l rest : List α)
    (hl : ∀ x ∈ l, x = k) (hne : l ≠ []) :
    uniq (l ++ rest) = k :: (uniq rest).filter (fun y => y ≠ k) := by
  induction l with
  | nil => exact absurd rfl hne
  | cons x l' ih =>
    have hx : x = k := hl x (by simp)
    subst hx
    rw [List.cons_append, uniq_cons]
    congr 1
    cases l' with
    | nil => rw [List.nil_append]
    | cons z l'' =>
      rw [ih (fun y hy => hl y (List.mem_cons_of_mem x hy)) (by simp)]
      have hstep :
          (x :: (uniq rest).filter (fun y => y ≠ x)).filter (fun y => y ≠ x) =
            ((uniq rest).filter (fun y => y ≠ x)).filter (fun y => y ≠ x) := by
        rw [List.filter_cons]
        simp
      rw [hstep, filter_idem]

theorem uniq_flatMap_blocks {α : Type} [DecidableEq α] (keys : List α)
    (b : α → List α) (hnd : keys.Nodup)
    (hall : ∀ k ∈ keys, ∀ x ∈ b k, x = k)
    (hne : ∀ k ∈ keys, b k ≠ []) :
    uniq (keys.flatMap b) = keys := by
  induction keys with
  | nil => rfl
  | cons k ks ih =>
    rw [List.flatMap_cons]
    rw [uniq_all_eq_append k (b k) (ks.flatMap b)
      (hall k (by simp)) (hne k (by simp))]
    have hnd' := (List.nodup_cons.mp hnd).2
    have hknotin := (List.nodup_cons.mp hnd).1
    rw [ih hnd' (fun k2 hk2 => hall k2 (List.mem_cons_of_mem k hk2))
      (fun k2 hk2 => hne k2 (List.mem_cons_of_mem k hk2))]
    congr 1
    apply List.filter_eq_self.mpr
    intro x hx
    simp only [decide_eq_true_eq]
    intro hxk
    exact hknotin (hxk ▸ hx)

theorem filter_flatMap_blocks (keys : List String) (b : String → List Row)
    (s : String) (hnd : keys.Nodup)
    (hall : ∀ k ∈ keys, ∀ r ∈ b k, r.stock = k) :
    (keys.flatMap b).filter (fun r => r.stock == s) =
      if s ∈ keys then b s else [] := by
  induction keys with
  | nil => simp
  | cons k ks ih =>
    rw [List.flatMap_cons, List.filter_append]
    have hnd' := (List.nodup_cons.mp hnd).2
    have hknotin := (List.nodup_cons.mp hnd).1
    rw [ih hnd' (fun k2 hk2 => hall k2 (List.mem_cons_of_mem k hk2))]
    by_cases hs : s = k
    · subst hs
      have h1 : (b s).filter (fun r => r.stock == s) = b s := by
        apply List.filter_eq_self.mpr
        intro r hr
        simp [hall s (by simp) r hr]
      rw [h1, if_neg (fun h => hknotin h), if_pos (by simp)]
      simp
    · have h1 : (b k).filter (fun r => r.stock == s) = [] := by
        apply List.filter_eq_nil_iff.mpr
        intro r hr
        simp [hall k (by simp) r hr]
        exact fun h => hs h.symm
      rw [h1]
      simp only [List.nil_append]
      by_cases hmem : s ∈ ks
      · rw [if_pos hmem, if_pos (List.mem_cons_of_mem k hmem)]
      · rw [if_neg hmem, if_neg (by
          intro h
          rcases List.mem_cons.mp h with h | h
          · exact hs h
          · exact hmem h)]

theorem groupOf_applyByStock (f : List Row → List Row) (p : List Row)
    (hsub : ∀ l r, r ∈ f l → r ∈ l) (s : String) :
    groupOf (applyByStock f p) s =
      if s ∈ stocksOf p then f (groupOf p s) else [] := by
  show ((stocksOf p).flatMap (fun k => f (groupOf p k))).filter
      (fun r => r.stock == s) = _
  exact filter_flatMap_blocks (stocksOf p) (fun k => f (groupOf p k)) s
    (uniq_nodup _) (fun k _ r hr => stock_of_mem_groupOf (hsub _ r hr))

theorem flatMap_congr {α β : Type} (l : List α) (f g : α → List β)
    (h : ∀ x ∈ l, f x = g x) : l.flatMap f = l.flatMap g := by
  induction l with
  | nil => rfl
  | cons x xs ih =>
    rw [List.flatMap_cons, List.flatMap_cons, h x (by simp),
      ih (fun y hy => h y (List.mem_cons_of_mem x hy))]

theorem groupOf_ne_nil_of_mem_stocksOf {p : List Row} {s : String}
    (h : s ∈ stocksOf p) : groupOf p s ≠ [] := by
  have := mem_uniq.mp h
  rcases List.mem_map.mp this with ⟨r, hr, hrs⟩
  intro hcon
  have : r ∈ groupOf p s := List.mem_filter.mpr ⟨hr, by simp [hrs]⟩
  rw [hcon] at this
  simp at this

theorem stocksOf_applyByStock (f : List Row → List Row) (p : List Row)
    (hsub : ∀ l r, r ∈ f l → r ∈ l)
    (hne : ∀ l, l ≠ [] → f l ≠ []) :
    stocksOf (applyByStock f p) = stocksOf p := by
  show uniq (((stocksOf p).flatMap (fun k => f (groupOf p k))).map Row.stock) = _
  rw [List.map_flatMap]
  exact uniq_flatMap_blocks (stocksOf p)
    (fun k => (f (groupOf p k)).map Row.stock) (uniq_nodup _)
    (fun k _ x hx => by
      rcases List.mem_map.mp hx with ⟨r, hr, hrx⟩
      rw [← hrx]
      exact stock_of_mem_groupOf (hsub _ r hr))
    (fun k hk => by
      simp only [ne_eq, List.map_eq_nil_iff]
      exact hne _ (groupOf_ne_nil_of_mem_stocksOf hk))

theorem applyByStock_idem (f : List Row → List Row)
    (hsub : ∀ l r, r ∈ f l → r ∈ l)
    (hne : ∀ l, l ≠ [] → f l ≠ [])
    (hid : ∀ l, f (f l) = f l) (p : List Row) :
    applyByStock f (applyByStock f p) = applyByStock f p := by
  show (stocksOf (applyByStock f p)).flatMap
      (fun s => f (groupOf (applyByStock f p) s)) = _
  rw [stocksOf_applyByStock f p hsub hne]
  apply flatMap_congr
  intro s hs
  rw [groupOf_applyByStock f p hsub s, if_pos hs, hid]

/-- **C9** (algebraic_relational, confirmed): each classification filter —
non-common-stock, cross-listing, implausible-OHLC, no-trading-activity —
is idempotent: reapplying the stage (with the same Statics and country
where applicable) to its own output removes zero additional rows. -/
theorem C9_idempotent_classification_filters :
    (∀ c p s, filter_non_common_stocks_core c
        (filter_non_common_stocks_core c p s) s =
        filter_non_common_stocks_core c p s) ∧
    (∀ c p s, filter_cross_listings_core c
        (filter_cross_listings_core c p s) s =
        filter_cross_listings_core c p s) ∧
    (∀ p, filter_implausible_prices_core (filter_implausible_prices_core p) =
        filter_implausible_prices_core p) ∧
    (∀ p, filter_no_trading_activity_core (filter_no_trading_activity_core p) =
        filter_no_trading_activity_core p) := by
  refine ⟨?_, ?_, ?_, ?_⟩
  · intro c p s
    exact filter_idem _ p
  · intro c p s
    exact filter_idem _ p
  · intro p
    exact filter_idem _ p
  · intro p
    exact applyByStock_idem dropIdentical
      (fun l r h => mem_dropIdentical l r h)
      (fun l h => dropIdentical_ne_nil l h)
      dropIdentical_idem p

/-! ### Claim C5 -/

theorem lookupTbl_isSome_iff {α : Type} (tbl : List (String × α)) (c : String) :
    (lookupTbl tbl c).isSome = true ↔ c ∈ tbl.map Prod.fst := by
  unfold lookupTbl
  rw [Option.isSome_map', List.find?_isSome]
  constructor
  · rintro ⟨kv, hkv, hbeq⟩
    exact List.mem_map.mpr ⟨kv, hkv, by simpa using hbeq⟩
  · intro h
    rcases List.mem_map.mp h with ⟨kv, hkv, hfst⟩
    exact ⟨kv, hkv, by simp [hfst]⟩

theorem lookupTbl_eq_none_of_not_mem {α : Type} {tbl : List (String × α)}
    {c : String} (h : c ∉ tbl.map Prod.fst) : lookupTbl tbl c = none := by
  cases hl : lookupTbl tbl c with
  | none => rfl
  | some v =>
    exact absurd ((lookupTbl_isSome_iff tbl c).mp (by simp [hl])) h

theorem lookupTbl_exists_of_mem {α : Type} {tbl : List (String × α)}
    {c : String} (h : c ∈ tbl.map Prod.fst) : ∃ v, lookupTbl tbl c = some v := by
  have := (lookupTbl_isSome_iff tbl c).mpr h
  cases hl : lookupTbl tbl c with
  | none => rw [hl] at this; simp at this
  | some v => exact ⟨v, rfl⟩

/-- **C5** (error_handling, confirmed): each country-parameterized stage
(non-common-stock, cross-listing, foreign-currency, survivorship) fails on
a country that is not a key of its lookup table with a `ValueError` whose
message names the full valid key set, and never falls back to a default
rule; for a country that is a key no such error is raised (the only
possible failure of those stages is the removal-report division, and the
survivorship stage, whose report is guarded, succeeds outright). -/
theorem C5_unknown_country_fail_fast :
    (∀ c p s, c ∉ equityIdentifiers.map Prod.fst →
        filter_non_common_stocks_run c p s =
          .error (invalidCountryMsg c (equityIdentifiers.map Prod.fst))) ∧
    (∀ c p s, c ∈ equityIdentifiers.map Prod.fst → ∀ msg,
        filter_non_common_stocks_run c p s = .error msg → msg = divZeroMsg) ∧
    (∀ c p s, c ∉ crossListingsDict.map Prod.fst →
        filter_cross_listings_run c p s =
          .error (invalidCountryMsg c (crossListingsDict.map Prod.fst))) ∧
    (∀ c p s, c ∈ crossListingsDict.map Prod.fst → ∀ msg,
        filter_cross_listings_run c p s = .error msg → msg = divZeroMsg) ∧
    (∀ c p s, c ∉ currenciesDict.map Prod.fst →
        filter_foreign_currency_stocks_run c p s =
          .error (invalidCountryMsg c (currenciesDict.map Prod.fst))) ∧
    (∀ c p s, c ∈ currenciesDict.map Prod.fst → ∀ msg,
        filter_foreign_currency_stocks_run c p s = .error msg →
          msg = divZeroMsg) ∧
    (∀ c p s, c ∉ countryStartDates.map Prod.fst →
        filter_surivorship_bias_run c p s =
          .error (invalidCountryMsg c (countryStartDates.map Prod.fst))) ∧
    (∀ c p s, c ∈ countryStartDates.map Prod.fst →
        filter_surivorship_bias_run c p s =
          .ok (filter_surivorship_bias_core c p s)) := by
  refine ⟨?_, ?_, ?_, ?_, ?_, ?_, ?_, ?_⟩
  · intro c p s h
    unfold filter_non_common_stocks_run
    rw [lookupTbl_eq_none_of_not_mem h]
  · intro c p s h msg herr
    rcases lookupTbl_exists_of_mem h with ⟨v, hv⟩
    unfold filter_non_common_stocks_run at herr
    rw [hv] at herr
    unfold guardDiv at herr
    by_cases hlen : s.length = 0
    · rw [if_pos hlen] at herr
      injection herr with h2
      exact h2.symm
    · rw [if_neg hlen] at herr
      exact Except.noConfusion herr
  · intro c p s h
    unfold filter_cross_listings_run
    rw [lookupTbl_eq_none_of_not_mem h]
  · intro c p s h msg herr
    rcases lookupTbl_exists_of_mem h with ⟨v, hv⟩
    unfold filter_cross_listings_run at herr
    rw [hv] at herr
    unfold guardDiv at herr
    by_cases hlen : s.length = 0
    · rw [if_pos hlen] at herr
      injection herr with h2
      exact h2.symm
    · rw [if_neg hlen] at herr
      exact Except.noConfusion herr
  · intro c p s h
    unfold filter_foreign_currency_stocks_run
    rw [lookupTbl_eq_none_of_not_mem h]
  · intro c p s h msg herr
    rcases lookupTbl_exists_of_mem h with ⟨v, hv⟩
    unfold filter_foreign_currency_stocks_run at herr
    rw [hv] at herr
    unfold guardDiv at herr
    by_cases hlen : (s.filter (fun sr => sr.geogn == c)).length = 0
    · rw [if_pos hlen] at herr
      injection herr with h2
      exact h2.symm
    · rw [if_neg hlen] at herr
      exact Except.noConfusion herr
  · intro c p s h
    unfold filter_surivorship_bias_run
    rw [lookupTbl_eq_none_of_not_mem h]
  · intro c p s h
    rcases lookupTbl_exists_of_mem h with ⟨v, hv⟩
    unfold filter_surivorship_bias_run
    rw [hv]

/-- Witness for C5: the unknown country `"ATLANTIS"` triggers the
key-naming error in all four stages, and the valid key
`"UNITED STATES"` never does. -/
theorem C5_unknown_country_fail_fast_witness :
    (filter_non_common_stocks_run "ATLANTIS" [] [] =
      .error (invalidCountryMsg "ATLANTIS" (equityIdentifiers.map Prod.fst))) ∧
    (divZeroMsg = divZeroMsg) ∧
    (filter_cross_listings_run "ATLANTIS" [] [] =
      .error (invalidCountryMsg "ATLANTIS" (crossListingsDict.map Prod.fst))) ∧
    (divZeroMsg = divZeroMsg) ∧
    (filter_foreign_currency_stocks_run "ATLANTIS" [] [] =
      .error (invalidCountryMsg "ATLANTIS" (currenciesDict.map Prod.fst))) ∧
    (divZeroMsg = divZeroMsg) ∧
    (filter_surivorship_bias_run "ATLANTIS" [] [] =
      .error (invalidCountryMsg "ATLANTIS" (countryStartDates.map Prod.fst))) ∧
    (filter_surivorship_bias_run "UNITED STATES" [] [] =
      .ok (filter_surivorship_bias_core "UNITED STATES" [] [])) :=
  ⟨C5_unknown_country_fail_fast.1 "ATLANTIS" [] [] (by decide),
   C5_unknown_country_fail_fast.2.1 "UNITED STATES" [] [] (by decide)
     divZeroMsg rfl,
   C5_unknown_country_fail_fast.2.2.1 "ATLANTIS" [] [] (by decide),
   C5_unknown_country_fail_fast.2.2.2.1 "UNITED STATES" [] [] (by decide)
     divZeroMsg rfl,
   C5_unknown_country_fail_fast.2.2.2.2.1 "ATLANTIS" [] [] (by decide),
   C5_unknown_country_fail_fast.2.2.2.2.2.1 "UNITED STATES" [] [] (by decide)
     divZeroMsg rfl,
   C5_unknown_country_fail_fast.2.2.2.2.2.2.1 "ATLANTIS" [] [] (by decide),
   C5_unknown_country_fail_fast.2.2.2.2.2.2.2 "UNITED STATES" [] [] (by decide)⟩

/-! ### Claim C10 -/

theorem contains_iff_mem {α : Type} [BEq α] [LawfulBEq α] (l : List α) (a : α) :
    l.contains a = true ↔ a ∈ l := List.elem_iff

theorem mem_truncGroup {su : List SRow} {g : List Row} {r : Row}
    (h : r ∈ truncGroup su g) : r ∈ g := by
  have hback : ∀ x, x ∈ sortByDate g → x ∈ g := fun x hx =>
    (mem_sortByDate x g).mp hx
  unfold truncGroup at h
  cases hg : sortByDate g with
  | nil => rw [hg] at h; simp at h
  | cons r0 rest =>
    rw [hg] at h
    dsimp only at h
    cases hl : lookupDelist su r0.stock with
    | some dd =>
      rw [hl] at h
      have h1 := List.mem_reverse.mp h
      have h2 := (List.dropWhile_sublist _).subset h1
      have h3 := List.mem_reverse.mp h2
      have h4 := List.mem_of_mem_filter h3
      rw [← hg] at h4
      exact hback r h4
    | none =>
      rw [hl] at h
      rw [← hg] at h
      exact hback r h

theorem mem_dedupByDSCD_dscd (s : List SRow) (st : String) :
    st ∈ (dedupByDSCD s).map SRow.dscd ↔ st ∈ s.map SRow.dscd := by
  induction s with
  | nil => simp [dedupByDSCD]
  | cons x xs ih =>
    simp only [dedupByDSCD, List.map_cons, List.mem_cons]
    constructor
    · rintro (h | h)
      · left; exact h
      · right
        rcases List.mem_map.mp h with ⟨y, hy, hyd⟩
        have hy2 := (List.mem_filter.mp hy).1
        exact ih.mp (List.mem_map.mpr ⟨y, hy2, hyd⟩)
    · rintro (h | h)
      · left; exact h
      · by_cases hx : st = x.dscd
        · left; exact hx
        · right
          rcases List.mem_map.mp (ih.mpr h) with ⟨y, hy, hyd⟩
          refine List.mem_map.mpr ⟨y, List.mem_filter.mpr ⟨hy, ?_⟩, hyd⟩
          simp only [decide_eq_true_eq]
          intro hcon
          exact hx (hyd ▸ hcon ▸ rfl)

/-- **C10** (functional_correctness, confirmed): the padded-value/delisting
truncation joins the Panel to Statics with an inner join, so every Panel
row whose Stock has no row in Statics is removed — even a stock with no
delisting date and no trailing padded rows; rows of stocks present in
Statics survive untouched when nothing is to truncate. -/
theorem C10_padded_truncation_inner_join :
    (∀ p s,
        (filter_padded_values_delistings_core p s).all
          (fun r => (s.map SRow.dscd).contains r.stock) = true) ∧
    filter_padded_values_delistings_core
        [retRow "A" ⟨2020, 1, 1⟩ (some 1), retRow "B" ⟨2020, 1, 1⟩ (some 1)]
        [srowD "A"] =
      [retRow "A" ⟨2020, 1, 1⟩ (some 1)] := by
  refine ⟨?_, ?_⟩
  · intro p s
    rw [List.all_eq_true]
    intro r hr
    unfold filter_padded_values_delistings_core at hr
    rcases List.mem_flatMap.mp hr with ⟨st, _, hrf⟩
    have hrg := mem_truncGroup hrf
    have hrp := List.mem_filter.mp (List.mem_filter.mp hrg).1
    have hcont := hrp.2
    rw [contains_iff_mem] at hcont
    rw [contains_iff_mem]
    exact (mem_dedupByDSCD_dscd s r.stock).mp hcont
  · decide

/-- Witness for C10: on the two-row panel with only stock `A` in Statics,
every surviving row's stock is listed in Statics. -/
theorem C10_padded_truncation_inner_join_witness :
    (filter_padded_values_delistings_core
        [retRow "A" ⟨2020, 1, 1⟩ (some 1), retRow "B" ⟨2020, 1, 1⟩ (some 1)]
        [srowD "A"]).all
      (fun r => ([srowD "A"].map SRow.dscd).contains r.stock) = true :=
  C10_padded_truncation_inner_join.1
    [retRow "A" ⟨2020, 1, 1⟩ (some 1), retRow "B" ⟨2020, 1, 1⟩ (some 1)]
    [srowD "A"]

/-! ### Claim C7 -/

/-- **C7 counterexample** (to "every row whose denominator `Close·AdjFactor`
is zero is kept"): the row with `Close = 0`, `AdjFactor = 1`,
`UnadjClose = 1` has a zero denominator, yet the float ratio is `+inf`
(not NaN), so the stage drops it. -/
theorem C7_zero_denominator_counterexample :
    adjDiff (adjRow (some 0) (some 1) (some 1)) = AVal.inf ∧
    filter_adjustment_inconsistencies_core
        [adjRow (some 0) (some 1) (some 1)] (5 / 100) = [] := by
  constructor
  · decide
  · decide

/-- **C7 amended** (error_handling, corrected): a row passes the
adjustment-inconsistency filter iff one of `Close`, `AdjFactor`,
`UnadjClose` is null, or the denominator and `UnadjClose` are both zero
(`0/0` is NaN and passes), or the denominator is nonzero and the relative
discrepancy is at most the threshold; a zero denominator with a nonzero
`UnadjClose` yields `+inf` and the row is dropped. -/
theorem C7_adjustment_inconsistency_amended :
    (∀ ts (r : Row), adjKeep ts r = true ↔
        ((r.close = none ∨ r.adjF = none ∨ r.unadjC = none) ∨
          (∃ c a u, r.close = some c ∧ r.adjF = some a ∧ r.unadjC = some u ∧
            ((c * a = 0 ∧ u = 0) ∨ (c * a ≠ 0 ∧ |u - c * a| / (c * a) ≤ ts))))) ∧
    (∀ p ts r, r ∈ filter_adjustment_inconsistencies_core p ts ↔
        r ∈ p ∧ adjKeep ts r = true) := by
  constructor
  · intro ts r
    unfold adjKeep adjDiff
    cases hc : r.close with
    | none => simp
    | some c =>
      cases ha : r.adjF with
      | none => simp
      | some a =>
        cases hu : r.unadjC with
        | none => simp
        | some u =>
          simp only [Option.some.injEq, reduceCtorEq, false_or, or_false]
          by_cases he : c * a = 0
          · rw [if_pos he]
            by_cases hu0 : u = 0
            · rw [if_pos hu0]
              simp only [true_iff]
              exact ⟨c, a, u, rfl, rfl, rfl, Or.inl ⟨he, hu0⟩⟩
            · rw [if_neg hu0]
              constructor
              · intro h
                exact absurd h (by simp)
              · rintro ⟨c2, a2, u2, hc2, ha2, hu2, hcase⟩
                obtain rfl : c2 = c := hc2.symm
                obtain rfl : a2 = a := ha2.symm
                obtain rfl : u2 = u := hu2.symm
                rcases hcase with ⟨_, hu0b⟩ | ⟨hne, _⟩
                · exact absurd hu0b hu0
                · exact absurd he hne
          · rw [if_neg he]
            constructor
            · intro h
              refine ⟨c, a, u, rfl, rfl, rfl, Or.inr ⟨he, ?_⟩⟩
              simpa using h
            · rintro ⟨c2, a2, u2, hc2, ha2, hu2, hcase⟩
              obtain rfl : c2 = c := hc2.symm
              obtain rfl : a2 = a := ha2.symm
              obtain rfl : u2 = u := hu2.symm
              rcases hcase with ⟨he0, _⟩ | ⟨_, hle⟩
              · exact absurd he0 he
              · simpa using hle
  · intro p ts r
    exact List.mem_filter.trans (by rfl)

/-! ### Claim C8 -/

theorem countP_filter_helper {α : Type} (f g : α → Bool) (l : List α) :
    (l.filter g).countP f = l.countP (fun x => f x && g x) := by
  induction l with
  | nil => rfl
  | cons x xs ih =>
    rw [List.filter_cons]
    by_cases hg : g x
    · rw [if_pos hg]
      by_cases hf : f x
      · rw [List.countP_cons_of_pos _ _ hf,
          List.countP_cons_of_pos _ _ (by simp [hf, hg]), ih]
      · rw [List.countP_cons_of_neg _ _ hf,
          List.countP_cons_of_neg _ _ (by simp [hf]), ih]
    · rw [if_neg hg,
        List.countP_cons_of_neg _ _ (by simp [hg]), ih]

theorem countP_congr_helper {α : Type} (f g : α → Bool) (l : List α)
    (h : ∀ x ∈ l, f x = g x) : l.countP f = l.countP g := by
  induction l with
  | nil => rfl
  | cons x xs ih =>
    have hx := h x (by simp)
    have ih2 := ih (fun y hy => h y (List.mem_cons_of_mem x hy))
    by_cases hf : f x
    · rw [List.countP_cons_of_pos _ _ hf,
        List.countP_cons_of_pos _ _ (hx ▸ hf), ih2]
    · rw [List.countP_cons_of_neg _ _ hf,
        List.countP_cons_of_neg _ _ (hx ▸ hf), ih2]

/-- **C8 counterexample** (to "every Stock in the final Panel has exactly
one matching DSCD row in the final Statics"): with two identical-DSCD
Statics rows for stock `A`, the final Statics keeps both, so `A` has two
matching rows. -/
theorem C8_duplicate_dscd_counterexample :
    ("A" ∈ (final_cleanup [retRow "A" ⟨2020, 1, 1⟩ (some 0)]
        [srowD "A", srowD "A"]).1.map Row.stock) ∧
    ((final_cleanup [retRow "A" ⟨2020, 1, 1⟩ (some 0)]
        [srowD "A", srowD "A"]).2.countP (fun sr => sr.dscd == "A") = 2) := by
  constructor
  · decide
  · decide

/-- **C8 amended** (invariants, corrected): after the final cleanup, every
Stock occurring in the final Panel has exactly as many matching `DSCD` rows
in the final Statics as it had in the input Statics (at least one whenever
the input Statics lists it, but not necessarily exactly one, since
duplicate `DSCD` rows are preserved), and conversely every final Statics
row's `DSCD` occurs in the final Panel. -/
theorem C8_referential_integrity_amended :
    (∀ p s st, st ∈ (final_cleanup p s).1.map Row.stock →
        (final_cleanup p s).2.countP (fun sr => sr.dscd == st) =
          s.countP (fun sr => sr.dscd == st)) ∧
    (∀ p s sr, sr ∈ (final_cleanup p s).2 →
        sr.dscd ∈ (final_cleanup p s).1.map Row.stock) := by
  constructor
  · intro p s st hst
    show (s.filter _).countP _ = _
    rw [countP_filter_helper]
    apply countP_congr_helper
    intro sr _
    by_cases hd : sr.dscd == st
    · have hdeq : sr.dscd = st := by simpa using hd
      have hcont :
          (((p.filter (fun r => r.ret.isSome)).map Row.stock).contains sr.dscd) =
            true := by
        rw [contains_iff_mem, hdeq]
        exact hst
      rw [hcont]
      simp [hd]
    · simp [hd]
  · intro p s sr hsr
    have h2 := (List.mem_filter.mp hsr).2
    rw [contains_iff_mem] at h2
    exact h2

/-- Witness for C8 amended: stock `A` with a single Statics row keeps its
count of one, and that row's `DSCD` occurs in the final panel. -/
theorem C8_referential_integrity_amended_witness :
    ((final_cleanup [retRow "A" ⟨2020, 1, 1⟩ (some 0)] [srowD "A"]).2.countP
        (fun sr => sr.dscd == "A") =
      [srowD "A"].countP (fun sr => sr.dscd == "A")) ∧
    (srowD "A").dscd ∈
      (final_cleanup [retRow "A" ⟨2020, 1, 1⟩ (some 0)]
        [srowD "A"]).1.map Row.stock :=
  ⟨C8_referential_integrity_amended.1 [retRow "A" ⟨2020, 1, 1⟩ (some 0)]
      [srowD "A"] "A" (by decide),
   C8_referential_integrity_amended.2 [retRow "A" ⟨2020, 1, 1⟩ (some 0)]
      [srowD "A"] (srowD "A") (by decide)⟩

/-! ### Claim C6 -/

/-- **C6 counterexample** (to "the threshold is the percentile across all
stocks active that month, and exactly the stock-months strictly below it
are dropped"): in `pennyCexPanel` stock `C`'s previous-month close `7/10`
*equals* the per-stock 50th percentile `7/10` (so the claim keeps it), but
the code computes the percentile over all stock-day rows — `B`'s three
February rows triple-weight its value — giving threshold `1`, and `C`'s
February row is dropped. -/
theorem C6_penny_stock_counterexample :
    pennyCexRowC ∈ pennyCexPanel ∧
    prevUnadjClose pennyCexPanel "C" (2020, 2) = some (7 / 10) ∧
    pennyThresholdPerStock pennyCexPanel (1 / 2) (2020, 2) = some (7 / 10) ∧
    ¬((7 : ℚ) / 10 < 7 / 10) ∧
    pennyThreshold pennyCexPanel (1 / 2) (2020, 2) = some 1 ∧
    pennyCexRowC ∉ filter_penny_stocks_core pennyCexPanel (1 / 2) := by
  refine ⟨by decide, by decide, by decide, by decide, by decide, by decide⟩

/-- **C6 amended** (functional_correctness, corrected): a row passes the
penny-stock filter iff its previous observed month's last non-null
unadjusted close is null, or is at least the month's threshold, where the
threshold is the `perc`-quantile of those previous closes across all
stock-day rows of the month (stocks weighted by their number of rows); for
`pennyDemoPanel` (one row per stock per month, previous closes `1…10`,
`perc = 0.10`) the threshold is the 10th percentile `1.9` of that set and
exactly stock `S01`'s February row is dropped. -/
theorem C6_penny_stock_amended :
    (∀ p perc r, r ∈ filter_penny_stocks_core p perc ↔
        r ∈ p ∧ (prevUnadjClose p r.stock (monthOf r.date) = none ∨
          (∃ v t, prevUnadjClose p r.stock (monthOf r.date) = some v ∧
            pennyThreshold p perc (monthOf r.date) = some t ∧ t ≤ v))) ∧
    pennyThreshold pennyDemoPanel (1 / 10) (2020, 2) = some (19 / 10) ∧
    filter_penny_stocks_core pennyDemoPanel (1 / 10) = pennyDemoExpected := by
  refine ⟨?_, by decide, by decide⟩
  intro p perc r
  rw [show filter_penny_stocks_core p perc = p.filter (pennyKeep p perc) from rfl]
  rw [List.mem_filter]
  apply and_congr_right
  intro _
  unfold pennyKeep
  cases hv : prevUnadjClose p r.stock (monthOf r.date) with
  | none => simp
  | some v =>
    cases ht : pennyThreshold p perc (monthOf r.date) with
    | none => simp
    | some t => simp

/-! ### Claim C1 -/

/-- **C1 counterexample** (to "every stage returns an empty result on an
empty Panel and does not fail; the removal-rate report is well defined on
empty input"): the zero-return stage's report divides by the input row
count without a guard, so on an empty Panel it raises `ZeroDivisionError`
instead of returning an empty result. -/
theorem C1_empty_input_counterexample :
    filter_zero_return_stocks_run [] = .error divZeroMsg ∧
    ∀ res : List Row, filter_zero_return_stocks_run [] ≠ .ok res := by
  constructor
  · rfl
  · intro res h
    exact Except.noConfusion (h.symm.trans rfl)

/-- **C1 amended** (error_handling, corrected): on empty inputs the
filtering logic of every modelled stage yields an empty result, and the
stages whose removal report guards its division — `handle_missings`,
`filter_surivorship_bias` and the division-free
`filter_countries_with_few_stocks` — succeed with that empty result;
every other stage raises `ZeroDivisionError` from its removal-rate
report. -/
theorem C1_empty_input_amended :
    (∀ c, handle_missings_run c [] [] = .ok []) ∧
    (filter_surivorship_bias_run "UNITED STATES" [] [] = .ok []) ∧
    (∀ m, filter_countries_with_few_stocks_run [] [] m = .ok ([], [])) ∧
    (filter_non_common_stocks_run "UNITED STATES" [] [] = .error divZeroMsg) ∧
    (filter_cross_listings_run "UNITED STATES" [] [] = .error divZeroMsg) ∧
    (filter_foreign_currency_stocks_run "UNITED STATES" [] [] =
      .error divZeroMsg) ∧
    (filter_duplicate_loc_codes_run [] [] = .error divZeroMsg) ∧
    (filter_implausible_returns_run [] = .error divZeroMsg) ∧
    (filter_padded_values_delistings_run [] [] = .error divZeroMsg) ∧
    (filter_stale_prices_run [] = .error divZeroMsg) ∧
    (filter_zero_return_stocks_run [] = .error divZeroMsg) ∧
    (∀ ts, filter_stocks_by_high_volatility_run [] ts = .error divZeroMsg) ∧
    (∀ ts, filter_stocks_by_low_volatility_run [] ts = .error divZeroMsg) ∧
    (∀ up down mode, filter_outlier_errors_run up down mode [] =
      .error divZeroMsg) ∧
    (∀ ts, filter_holidays_run [] ts = .error divZeroMsg) ∧
    (∀ perc, filter_penny_stocks_run [] perc = .error divZeroMsg) ∧
    (filter_implausible_prices_run [] = .error divZeroMsg) ∧
    (∀ ts, filter_extreme_prices_run [] ts = .error divZeroMsg) ∧
    (∀ up down, filter_decimal_errors_run [] up down = .error divZeroMsg) ∧
    (filter_no_trading_activity_run [] = .error divZeroMsg) ∧
    (∀ ts, filter_adjustment_inconsistencies_run [] ts = .error divZeroMsg) ∧
    (∀ t, filter_short_history_stocks_run [] t = .error divZeroMsg) ∧
    (∀ lo hi, filter_extreme_returns_run [] lo hi = .error divZeroMsg) ∧
    (∀ n, filter_extreme_returns2_run [] n = .error divZeroMsg) ∧
    (∀ c, filter_non_common_stocks_core c [] [] = []) ∧
    (∀ c, filter_cross_listings_core c [] [] = []) ∧
    (∀ c, filter_foreign_currency_stocks_core c [] [] = []) ∧
    (∀ c, filter_surivorship_bias_core c [] [] = []) ∧
    (filter_duplicate_loc_codes_core [] [] = []) ∧
    (∀ m, filter_countries_with_few_stocks_core [] [] m = ([], [])) ∧
    (filter_implausible_returns_core [] = []) ∧
    (filter_padded_values_delistings_core [] [] = []) ∧
    (filter_stale_prices_core [] = []) ∧
    (filter_zero_return_stocks_core [] = []) ∧
    (∀ ts, filter_stocks_by_high_volatility_core [] ts = []) ∧
    (∀ ts, filter_stocks_by_low_volatility_core [] ts = []) ∧
    (∀ up down mode, filter_outlier_errors_core up down mode [] = []) ∧
    (∀ ts, filter_holidays_core [] ts = []) ∧
    (∀ perc, filter_penny_stocks_core [] perc = []) ∧
    (filter_implausible_prices_core [] = []) ∧
    (∀ ts, filter_extreme_prices_core [] ts = []) ∧
    (∀ up down, filter_decimal_errors_core [] up down = []) ∧
    (filter_no_trading_activity_core [] = []) ∧
    (∀ ts, filter_adjustment_inconsistencies_core [] ts = []) ∧
    (∀ t, filter_short_history_stocks_core [] t = []) ∧
    (∀ lo hi, filter_extreme_returns_core [] lo hi = []) ∧
    (∀ n, filter_extreme_returns2_core [] n = []) ∧
    (∀ c, handle_missings_core c [] [] = []) := by
  refine ⟨fun c => rfl, rfl, fun m => rfl, rfl, rfl, rfl, rfl, rfl, rfl, rfl,
    rfl, fun ts => rfl, fun ts => rfl, fun up down mode => rfl, fun ts => rfl,
    fun perc => rfl, rfl, fun ts => rfl, fun up down => rfl, rfl,
    fun ts => rfl, fun t => rfl, fun lo hi => rfl, fun n => rfl,
    fun c => rfl, fun c => rfl, fun c => rfl, fun c => rfl,
    rfl, fun m => rfl, rfl, rfl, rfl, rfl, fun ts => rfl, fun ts => rfl,
    fun up down mode => rfl, fun ts => rfl, fun perc => rfl, rfl,
    fun ts => rfl, fun up down => rfl, rfl, fun ts => rfl, fun t => rfl,
    fun lo hi => rfl, fun n => rfl, fun c => rfl⟩
